import Mathlib

set_option maxRecDepth 100000

/-!
A verification development for the tiddler-extraction core of PyTiddlyWiki
(`Tiddler.py`).  The Python code is shallowly embedded over `List Char`:

* `RE_TIDDLER`-based scanning (`Tiddler.finditer`'s outer loop) is modelled by
  `tiddlerMatches`, which reproduces the leftmost, non-overlapping scan of
  `re.finditer` together with the lazy (non-greedy) semantics of the two
  `[\w\W]*?` capture groups.
* `RE_OPTION`-based attribute scanning is modelled by `optionFinditer`.
  The Python classes `\w` and `\s` are modelled on their ASCII fragment.
* The Python `dict` built from the option matches is modelled by an
  insertion-ordered association list (`dictInsert` / `dictGet`): a repeated
  key overwrites the stored value in place, new keys are appended.
* The helpers `Tw5Mixin.string_to_date` and `Tw5Mixin.get_tag_list` are not
  part of the provided sources; they are modelled from the specification
  (see their doc comments).
* Python exception flow is explicit: `processMatch` returns
  `Except PyError (Option Tiddler)` where `.error` is an exception that
  escapes the generator, `.ok none` is a `continue` (skipped candidate) and
  `.ok (some t)` is a `yield`.

All recursion is structural (scanners take an explicit fuel argument that the
wrappers instantiate with the input length), so every definition evaluates by
kernel reduction.
-/

namespace Tw

/-- ASCII fragment of Python's `\s` class (space, tab, newline, carriage
return, vertical tab, form feed). -/
def isSpaceChar (c : Char) : Bool :=
  c == ' ' || c == '\t' || c == '\n' || c == '\r' || c == '\x0b' || c == '\x0c'

/-- ASCII fragment of Python's `\w` class (letters, digits, underscore). -/
def isWordChar (c : Char) : Bool :=
  c.isAlpha || c.isDigit || c == '_'

/-- Split `s` at the first occurrence of `pat`: `some (a, b)` with
`s = a ++ pat ++ b` and no occurrence of `pat` starting inside `a`.
This is the semantics of a lazy capture group followed by the literal `pat`. -/
def splitFirst (pat : List Char) : List Char → Option (List Char × List Char)
  | [] => if pat = [] then some ([], []) else none
  | c :: rest =>
    if pat.isPrefixOf (c :: rest) then some ([], (c :: rest).drop pat.length)
    else (splitFirst pat rest).map fun p => (c :: p.1, p.2)

/-- `"<div"`, the opening marker of `RE_TIDDLER`. -/
def divOpen : List Char := '<' :: 'd' :: 'i' :: 'v' :: []

/-- `">\n<pre>"`, the literal between the `options` and `content` captures of
`RE_TIDDLER`. -/
def optEnd : List Char := '>' :: '\n' :: '<' :: 'p' :: 'r' :: 'e' :: '>' :: []

/-- `"</pre>\n</div>"`, the closing literal of `RE_TIDDLER`. -/
def contEnd : List Char :=
  '<' :: '/' :: 'p' :: 'r' :: 'e' :: '>' :: '\n' :: '<' :: '/' :: 'd' :: 'i' :: 'v' :: '>' :: []

/-- Matching of `RE_TIDDLER` after the literal `"<div"` has been consumed:
the lazy `options` capture grows one character at a time; at each size the
engine requires the literal `">\n<pre>"` and then a lazy `content` capture
ending at the first `"</pre>\n</div>"`.  Returns
`some (options, content, rest)` for the leftmost successful split. -/
def matchAfterDiv : List Char → Option (List Char × List Char × List Char)
  | [] => none
  | c :: rest =>
    match
      if optEnd.isPrefixOf (c :: rest) then
        splitFirst contEnd ((c :: rest).drop optEnd.length)
      else none
    with
    | some (ct, r) => some ([], ct, r)
    | none => (matchAfterDiv rest).map fun p => (c :: p.1, p.2.1, p.2.2)

/-- One attempt of `RE_TIDDLER` at the current scan position: the match must
begin with the literal `"<div"`. -/
def tryTiddlerAt (s : List Char) : Option (List Char × List Char × List Char) :=
  if divOpen.isPrefixOf s then matchAfterDiv (s.drop divOpen.length) else none

/-- Fueled scan of `re.finditer(RE_TIDDLER, buffer)`: try a match at the
current position; on success emit the two captures and resume after the
match, on failure advance one character. -/
def tiddlerMatchesF : Nat → List Char → List (List Char × List Char)
  | 0, _ => []
  | fuel + 1, s =>
    match tryTiddlerAt s with
    | some (o, ct, r) => (o, ct) :: tiddlerMatchesF fuel r
    | none =>
      match s with
      | [] => []
      | _ :: rest => tiddlerMatchesF fuel rest

/-- The list of raw `(options, content)` matches produced by the Record
Matcher (`re.finditer(RE_TIDDLER, buffer)`) in source order. -/
def tiddlerMatches (s : List Char) : List (List Char × List Char) :=
  tiddlerMatchesF (s.length + 1) s

/-- One attempt of `RE_OPTION` (`\s+(?P<key>\w+?)="(?P<value>[\w\W]*?)"`) at
the current scan position: one or more whitespace characters, a non-empty
run of word characters (the lazy `\w+?` stops exactly at the first non-word
character because `=` is not a word character), the literal `="`, then a lazy
value capture ending at the first `"`. -/
def matchOptionAt (s : List Char) : Option (List Char × List Char × List Char) :=
  match s with
  | [] => none
  | c :: _ =>
    if isSpaceChar c then
      let afterSp := s.dropWhile isSpaceChar
      let key := afterSp.takeWhile isWordChar
      let rest0 := afterSp.dropWhile isWordChar
      if key = [] then none
      else if rest0.take 2 = '=' :: '"' :: [] then
        match splitFirst ('"' :: []) (rest0.drop 2) with
        | some (v, r) => some (key, v, r)
        | none => none
      else none
    else none

/-- Fueled scan of `re.finditer(RE_OPTION, options)`. -/
def optionFinditerF : Nat → List Char → List (String × String)
  | 0, _ => []
  | fuel + 1, s =>
    match matchOptionAt s with
    | some (k, v, r) => (String.mk k, String.mk v) :: optionFinditerF fuel r
    | none =>
      match s with
      | [] => []
      | _ :: rest => optionFinditerF fuel rest

/-- The list of `(key, value)` pairs produced by the Attribute Tokenizer
(`re.finditer(RE_OPTION, options)`) in source order. -/
def optionFinditer (s : List Char) : List (String × String) :=
  optionFinditerF (s.length + 1) s

/-- Python `dict` assignment `d[k] = v`: overwrite in place if the key is
present, append otherwise. -/
def dictInsert (d : List (String × String)) (k v : String) : List (String × String) :=
  if d.any fun p => p.1 == k then d.map fun p => if p.1 == k then (k, v) else p
  else d ++ [(k, v)]

/-- Python `dict` lookup `d.get(k)`: value of the first (unique) entry with
key `k`. -/
def dictGet (d : List (String × String)) (k : String) : Option String :=
  (d.find? fun p => p.1 == k).map fun p => p.2

/-- The `attr` dictionary built by `Tiddler.finditer` from the `options`
capture: the option matches in source order, inserted into a dict. -/
def attrsOf (options : List Char) : List (String × String) :=
  (optionFinditer options).foldl (fun d kv => dictInsert d kv.1 kv.2) []

/-- A parsed timestamp. -/
structure Date where
  year : Nat
  month : Nat
  day : Nat
  hour : Nat
  minute : Nat
  second : Nat
  millisecond : Nat
deriving DecidableEq, Repr

/-- Digit-fold of a character list: `"0419"` becomes `419`. -/
def digitsToNat (cs : List Char) : Nat :=
  cs.foldl (fun a c => a * 10 + (c.toNat - '0'.toNat)) 0

/-- Modelled from the spec: `Tw5Mixin.string_to_date` is not among the
provided sources.  Section 4.3 describes it as parsing a fixed-width numeric
`"YYYYMMDDhhmmssSSS"` stamp with explicit year/month/day/hour/minute/second/
millisecond fields, where a present-but-malformed value is a hard parse
error for the field.  The parse error is represented by `none`; callers that
do not handle it model Python's uncaught `ValueError`. -/
def string_to_date (s : String) : Option Date :=
  let cs := s.toList
  if cs.length = 17 ∧ cs.all Char.isDigit then
    some { year := digitsToNat (cs.take 4)
         , month := digitsToNat ((cs.drop 4).take 2)
         , day := digitsToNat ((cs.drop 6).take 2)
         , hour := digitsToNat ((cs.drop 8).take 2)
         , minute := digitsToNat ((cs.drop 10).take 2)
         , second := digitsToNat ((cs.drop 12).take 2)
         , millisecond := digitsToNat (cs.drop 14) }
  else none

/-- Fueled tag-expression scanner, modelled from the spec (see
`get_tag_list`): a tag is either a double-bracketed phrase `[[multi word]]`
(ending at the first `]]`) or a bare word ending at the next space; tags are
separated by spaces and source order is preserved. -/
def parseTagsF : Nat → List Char → List String
  | 0, _ => []
  | fuel + 1, s =>
    match s with
    | [] => []
    | c :: rest =>
      if c = ' ' then parseTagsF fuel rest
      else if c = '[' ∧ rest.head? = some '[' then
        match splitFirst (']' :: ']' :: []) rest.tail with
        | some (tag, after) => String.mk tag :: parseTagsF fuel after
        | none => String.mk (c :: rest) :: []
      else
        String.mk (c :: rest.takeWhile fun a => a != ' ')
          :: parseTagsF fuel (rest.dropWhile fun a => a != ' ')

/-- Modelled from the spec: `Tw5Mixin.get_tag_list` is not among the provided
sources.  Section 4.3 describes the tag expression as bare words or
double-bracketed phrases, split into an ordered sequence preserving source
order, with the documented example
`"[[multi word tag]] tag2 tag3" = ["multi word tag", "tag2", "tag3"]`.
An unterminated `[[` phrase (not covered by the spec) is kept whole as a
single tag; the function is total either way. -/
def get_tag_list (s : String) : List String :=
  parseTagsF (s.toList.length + 1) s.toList

/-- A Python exception escaping `Tiddler.finditer`. -/
inductive PyError where
  /-- An uncaught `ValueError` from `string_to_date` on a present-but-
  malformed timestamp (the surrounding `try` blocks catch only `KeyError`). -/
  | valueError
  /-- An uncaught `TypeError` from `cls(content, **attr)` when `attr` holds a
  key that collides with a positional parameter of `__init__`. -/
  | typeError
deriving DecidableEq, Repr

/-- The record entity: the fields assigned by `Tiddler.__init__`.  `extra`
holds the dynamic instance attributes injected by
`self.__dict__.update(kwargs)` (line 29) — every `**kwargs` entry except one
keyed literally `type_`, which instead lands on (and overwrites) the
first-class `type_` field, because `__dict__.update` writes attributes by
name and line 28 has just stored the `type` parameter under the attribute
name `type_`. -/
structure Tiddler where
  content : String
  title : Option String
  tags : List String
  created : Option Date
  modified : Option Date
  type_ : String
  extra : List (String × String)
deriving DecidableEq, Repr

/-- `Tiddler.__init__(content, title=None, tags=None, created=None,
modified=None, type='text/vnd.tiddlywiki', **kwargs)`: `None` tags default to
the empty list, an absent `type` defaults to the native wiki type string.
The closing `self.__dict__.update(kwargs)` (line 29) injects every keyword
argument as a dynamic instance attribute by reflection; the parameter is
named `type`, so a keyword literally named `type_` is NOT bound to it and
arrives in `kwargs`, where the dictionary update overwrites the `type_`
attribute that line 28 just set.  All other `kwargs` keys become fresh
dynamic attributes, modelled by the `extra` field. -/
def tiddlerInit (content : String) (title : Option String)
    (tags : Option (List String)) (created : Option Date)
    (modified : Option Date) (type_ : Option String)
    (kwargs : List (String × String)) : Tiddler :=
  { content := content
  , title := title
  , tags := tags.getD []
  , created := created
  , modified := modified
  , type_ := (dictGet kwargs "type_").getD (type_.getD "text/vnd.tiddlywiki")
  , extra := kwargs.filter fun p => !(p.1 == "type_") }

/-- The attribute keys that bind to named parameters of `__init__` when
`finditer` calls `cls(content, **attr)`. -/
def recognizedKeys : List String :=
  "title" :: "tags" :: "created" :: "modified" :: "type" :: []

/-- The keyword arguments left for `**kwargs`: every attribute not routed to
a named parameter. -/
def extrasOf (attr : List (String × String)) : List (String × String) :=
  attr.filter fun p => !(recognizedKeys.contains p.1)

/-- `title.startswith('$:/')`, the reserved system-namespace test, modelled
over the character list. -/
def startsWithSys (t : String) : Bool :=
  ('$' :: ':' :: '/' :: []).isPrefixOf t.toList

/-- The tail of one iteration of `Tiddler.finditer` (lines 55-66): normalize
`created` (a missing key is a skip, a malformed value an uncaught
`ValueError`), filter on `title` (missing or `$:/`-prefixed is a skip), then
construct the record.  `cls(content, **attr)` raises `TypeError` when `attr`
holds a key colliding with the positional parameters `self`/`content`. -/
def buildTiddler (attr : List (String × String)) (content : List Char)
    (tags : Option (List String)) (modified : Option Date) :
    Except PyError (Option Tiddler) :=
  match dictGet attr "created" with
  | none => .ok none
  | some cs =>
    match string_to_date cs with
    | none => .error .valueError
    | some cd =>
      match dictGet attr "title" with
      | none => .ok none
      | some t =>
        if startsWithSys t then .ok none
        else if (dictGet attr "content").isSome || (dictGet attr "self").isSome then
          .error .typeError
        else
          .ok (some (tiddlerInit (String.mk content) (some t) tags (some cd)
            modified (dictGet attr "type") (extrasOf attr)))

/-- One iteration of the `Tiddler.finditer` loop body on a raw match:
tokenize the options, normalize `tags` (total), normalize `modified` (a
missing key is ignored, a malformed value an uncaught `ValueError`), then
continue with `buildTiddler`. -/
def processMatch (options content : List Char) : Except PyError (Option Tiddler) :=
  let attr := attrsOf options
  let tags := (dictGet attr "tags").map get_tag_list
  match dictGet attr "modified" with
  | none => buildTiddler attr content tags none
  | some ms =>
    match string_to_date ms with
    | none => .error .valueError
    | some md => buildTiddler attr content tags (some md)

/-- The event stream of the generator over a list of raw matches: yields in
order; a skip produces nothing; an uncaught exception ends the stream. -/
def scanEvents : List (List Char × List Char) → List (Except PyError Tiddler)
  | [] => []
  | (o, c) :: rest =>
    match processMatch o c with
    | .error e => .error e :: []
    | .ok none => scanEvents rest
    | .ok (some t) => .ok t :: scanEvents rest

/-- `Tiddler.finditer(buffer)` as an event stream: each `.ok` is a yielded
record (in source order), a trailing `.error` is an exception raised while
the consumer pulls the next element. -/
def finditer (buffer : List Char) : List (Except PyError Tiddler) :=
  scanEvents (tiddlerMatches buffer)

/-- The records actually yielded by `Tiddler.finditer(buffer)`. -/
def yielded (buffer : List Char) : List Tiddler :=
  (finditer buffer).filterMap fun e =>
    match e with
    | .ok t => some t
    | .error _ => none

/-- `Tiddler.parse_from_string(buffer)`: run the generator until its first
event; a first yield is returned, exhaustion (`StopIteration`) becomes
`None`, and an exception raised before the first yield propagates. -/
def parse_from_string (buffer : List Char) : Except PyError (Option Tiddler) :=
  match (finditer buffer).head? with
  | none => .ok none
  | some (.ok t) => .ok (some t)
  | some (.error e) => .error e

/-- The Inclusion Filter of the spec (section 4.4) on a raw match's options:
`created` present and parsing successfully, `title` present, `title` not
`$:/`-prefixed. -/
def satisfiesRules (options : List Char) : Bool :=
  let attr := attrsOf options
  (Option.bind (dictGet attr "created") string_to_date).isSome &&
  match dictGet attr "title" with
  | some t => !(startsWithSys t)
  | none => false

/-- A raw match that triggers no uncaught exception in the loop body: its
`created` and `modified` values (when present) parse, and no attribute
collides with the `self`/`content` parameters of `__init__`. -/
def safeMatch (options : List Char) : Bool :=
  let attr := attrsOf options
  (match dictGet attr "modified" with
   | some v => (string_to_date v).isSome
   | none => true) &&
  (match dictGet attr "created" with
   | some v => (string_to_date v).isSome
   | none => true) &&
  (dictGet attr "content").isNone && (dictGet attr "self").isNone

/-- The record that `finditer` constructs from a raw match that survives the
Inclusion Filter. -/
def recordOf (options content : List Char) : Tiddler :=
  let attr := attrsOf options
  tiddlerInit (String.mk content) (dictGet attr "title")
    ((dictGet attr "tags").map get_tag_list)
    (Option.bind (dictGet attr "created") string_to_date)
    (Option.bind (dictGet attr "modified") string_to_date)
    (dictGet attr "type") (extrasOf attr)

/-- A well-formed record block: `"<div"`, the options, `">\n<pre>"`, the
content, `"</pre>\n</div>"`. -/
def mkBlock (o ct : List Char) : List Char :=
  divOpen ++ (o ++ (optEnd ++ (ct ++ contEnd)))

/-- Zero-padded fixed-width decimal digits of `n` (most significant first). -/
def padNum : Nat → Nat → List Char
  | 0, _ => []
  | w + 1, n => Nat.digitChar (n / 10 ^ w % 10) :: padNum w (n % 10 ^ w)

/-- Modelled from the spec: serialization of a timestamp back into the
fixed-width `"YYYYMMDDhhmmssSSS"` numeric stamp of section 4.3 — the inverse
direction needed to state the round-trip property of section 8 (the sources
contain no serializer). -/
def date_chars (d : Date) : List Char :=
  padNum 4 d.year ++ (padNum 2 d.month ++ (padNum 2 d.day ++ (padNum 2 d.hour
    ++ (padNum 2 d.minute ++ (padNum 2 d.second ++ padNum 3 d.millisecond)))))

/-- Modelled from the spec: serialization of one tag back into the tag
expression syntax of section 4.3 — a multi-word tag is double-bracketed, a
bare tag is written as is. -/
def tag_chars (t : String) : List Char :=
  if ' ' ∈ t.toList then '[' :: '[' :: (t.toList ++ (']' :: ']' :: []))
  else t.toList

/-- Modelled from the spec: serialization of a tag sequence, space-separated
in source order. -/
def tags_chars : List String → List Char
  | [] => []
  | t :: ts => tag_chars t ++ (' ' :: tags_chars ts)

/-- One serialized `key="value"` attribute fragment followed by `rest`. -/
def attrFragment (key : String) (value rest : List Char) : List Char :=
  ' ' :: (key.toList ++ ('=' :: '"' :: (value ++ ('"' :: rest))))

/-- Modelled from the spec: re-serialization of a Record's recognized fields
back into an attribute string (section 8's round-trip property). -/
def serializeRecognized (ti : String) (tags : List String) (cd md : Date) :
    List Char :=
  attrFragment "title" ti.toList
    (attrFragment "tags" (tags_chars tags)
      (attrFragment "created" (date_chars cd)
        (attrFragment "modified" (date_chars md) [])))

/-- A tag value that the tag syntax can represent faithfully: no quote
character; a multi-word tag must not contain an early `]]` terminator; a
bare tag must be non-empty and must not begin with `[[`. -/
def wfTag (t : String) : Bool :=
  decide ('"' ∉ t.toList) &&
  (if ' ' ∈ t.toList then
    decide (splitFirst (']' :: ']' :: []) (t.toList ++ (']' :: ']' :: []))
      = some (t.toList, []))
  else
    decide (t.toList ≠ []) && !(('[' :: '[' :: []).isPrefixOf t.toList))

/-- Timestamp fields representable in the fixed widths 4/2/2/2/2/2/3. -/
def wfDate (d : Date) : Bool :=
  decide (d.year < 10000) && decide (d.month < 100) && decide (d.day < 100)
    && decide (d.hour < 100) && decide (d.minute < 100)
    && decide (d.second < 100) && decide (d.millisecond < 1000)

/-- The tag-expression scanner on a character list (see `get_tag_list`). -/
def parseTags (l : List Char) : List String :=
  parseTagsF (l.length + 1) l

theorem splitFirst_length {pat s a b : List Char}
    (h : splitFirst pat s = some (a, b)) :
    a.length + (pat.length + b.length) = s.length := by
  induction s generalizing a b with
  | nil =>
    simp only [splitFirst] at h
    split at h
    · next hp =>
      cases h
      simp [hp]
    · cases h
  | cons c rest ih =>
    simp only [splitFirst] at h
    split at h
    · next hp =>
      cases h
      have hle : pat.length ≤ (c :: rest).length :=
        (List.isPrefixOf_iff_prefix.mp hp).length_le
      simp only [List.length_drop, List.length_nil]
      omega
    · next hp =>
      rcases hmap : splitFirst pat rest with _ | ⟨a', b'⟩ <;> rw [hmap] at h
      · cases h
      · simp only [Option.map_some'] at h
        cases h
        have := ih hmap
        simp only [List.length_cons]
        omega

theorem length_dropWhile_le (p : Char → Bool) (l : List Char) :
    (l.dropWhile p).length ≤ l.length := by
  induction l with
  | nil => simp
  | cons a l ih =>
    simp only [List.dropWhile_cons]
    split
    · simp only [List.length_cons]
      omega
    · simp

theorem matchAfterDiv_length {s o ct r : List Char}
    (h : matchAfterDiv s = some (o, ct, r)) : r.length < s.length := by
  induction s generalizing o ct r with
  | nil => cases h
  | cons c rest ih =>
    simp only [matchAfterDiv] at h
    split at h
    · next hsome =>
      split at hsome
      · next hp =>
        cases h
        have hlen := splitFirst_length hsome
        have hle : optEnd.length ≤ (c :: rest).length :=
          (List.isPrefixOf_iff_prefix.mp hp).length_le
        have h7 : optEnd.length = 7 := rfl
        have h13 : contEnd.length = 13 := rfl
        simp only [List.length_drop] at hlen
        simp only [List.length_cons, h7, h13] at *
        omega
      · cases hsome
    · next hnone =>
      rcases hmap : matchAfterDiv rest with _ | ⟨o', ct', r'⟩ <;> rw [hmap] at h
      · cases h
      · simp only [Option.map_some'] at h
        cases h
        have := ih hmap
        simp only [List.length_cons]
        omega

theorem tryTiddlerAt_length {s o ct r : List Char}
    (h : tryTiddlerAt s = some (o, ct, r)) : r.length < s.length := by
  simp only [tryTiddlerAt] at h
  split at h
  · next hp =>
    have hlt := matchAfterDiv_length h
    have hle : divOpen.length ≤ s.length :=
      (List.isPrefixOf_iff_prefix.mp hp).length_le
    have h4 : divOpen.length = 4 := rfl
    simp only [List.length_drop, h4] at *
    omega
  · cases h

theorem tiddlerMatchesF_succ_some {fuel : Nat} {s o ct r : List Char}
    (h : tryTiddlerAt s = some (o, ct, r)) :
    tiddlerMatchesF (fuel + 1) s = (o, ct) :: tiddlerMatchesF fuel r := by
  simp only [tiddlerMatchesF, h]

theorem tiddlerMatchesF_succ_none {fuel : Nat} {c : Char} {rest : List Char}
    (h : tryTiddlerAt (c :: rest) = none) :
    tiddlerMatchesF (fuel + 1) (c :: rest) = tiddlerMatchesF fuel rest := by
  simp only [tiddlerMatchesF, h]

theorem tiddlerMatchesF_irrel :
    ∀ (f₁ : Nat) (s : List Char) (f₂ : Nat), s.length < f₁ → s.length < f₂ →
      tiddlerMatchesF f₁ s = tiddlerMatchesF f₂ s := by
  intro f₁
  induction f₁ with
  | zero => intro s f₂ h₁; omega
  | succ g ih =>
    intro s f₂ h₁ h₂
    rcases f₂ with _ | g₂
    · omega
    rcases hm : tryTiddlerAt s with _ | ⟨o, ct, r⟩
    · rcases s with _ | ⟨c, rest⟩
      · simp only [tiddlerMatchesF, hm]
      · rw [tiddlerMatchesF_succ_none hm, tiddlerMatchesF_succ_none hm]
        simp only [List.length_cons] at h₁ h₂
        exact ih rest g₂ (by omega) (by omega)
    · have hr := tryTiddlerAt_length hm
      rw [tiddlerMatchesF_succ_some hm, tiddlerMatchesF_succ_some hm,
        ih r g₂ (by omega) (by omega)]

theorem tiddlerMatches_nil : tiddlerMatches [] = [] := rfl

theorem tiddlerMatches_cons_some {s o ct r : List Char}
    (h : tryTiddlerAt s = some (o, ct, r)) :
    tiddlerMatches s = (o, ct) :: tiddlerMatches r := by
  have hr := tryTiddlerAt_length h
  have e1 : tiddlerMatches s = tiddlerMatchesF (s.length + 1) s := rfl
  rw [e1, tiddlerMatchesF_succ_some h,
    tiddlerMatchesF_irrel s.length r (r.length + 1) (by omega) (by omega)]
  rfl

theorem tiddlerMatches_cons_none {c : Char} {rest : List Char}
    (h : tryTiddlerAt (c :: rest) = none) :
    tiddlerMatches (c :: rest) = tiddlerMatches rest := by
  have e1 : tiddlerMatches (c :: rest)
      = tiddlerMatchesF ((c :: rest).length + 1) (c :: rest) := rfl
  rw [e1, tiddlerMatchesF_succ_none h]
  exact tiddlerMatchesF_irrel (c :: rest).length rest (rest.length + 1)
    (by simp) (by omega)

theorem matchOptionAt_length {s k v r : List Char}
    (h : matchOptionAt s = some (k, v, r)) : r.length < s.length := by
  rcases s with _ | ⟨c, t⟩
  · cases h
  simp only [matchOptionAt] at h
  split at h
  · next hsp =>
    split at h
    · cases h
    · split at h
      · rcases hsplit : splitFirst ('"' :: [])
            ((((c :: t).dropWhile isSpaceChar).dropWhile isWordChar).drop 2)
            with _ | ⟨v', r'⟩ <;> rw [hsplit] at h
        · cases h
        · cases h
          have h1 := splitFirst_length hsplit
          have h2 : ((c :: t).dropWhile isSpaceChar).length ≤ t.length := by
            have : (c :: t).dropWhile isSpaceChar = t.dropWhile isSpaceChar := by
              simp [List.dropWhile_cons, hsp]
            rw [this]
            exact length_dropWhile_le _ _
          have h3 : (((c :: t).dropWhile isSpaceChar).dropWhile isWordChar).length
              ≤ ((c :: t).dropWhile isSpaceChar).length :=
            length_dropWhile_le _ _
          simp only [List.length_drop, List.length_cons, List.length_nil] at *
          omega
      · cases h
  · cases h

theorem optionFinditerF_succ_some {fuel : Nat} {s k v r : List Char}
    (h : matchOptionAt s = some (k, v, r)) :
    optionFinditerF (fuel + 1) s
      = (String.mk k, String.mk v) :: optionFinditerF fuel r := by
  simp only [optionFinditerF, h]

theorem optionFinditerF_succ_none {fuel : Nat} {c : Char} {rest : List Char}
    (h : matchOptionAt (c :: rest) = none) :
    optionFinditerF (fuel + 1) (c :: rest) = optionFinditerF fuel rest := by
  simp only [optionFinditerF, h]

theorem optionFinditerF_irrel :
    ∀ (f₁ : Nat) (s : List Char) (f₂ : Nat), s.length < f₁ → s.length < f₂ →
      optionFinditerF f₁ s = optionFinditerF f₂ s := by
  intro f₁
  induction f₁ with
  | zero => intro s f₂ h₁; omega
  | succ g ih =>
    intro s f₂ h₁ h₂
    rcases f₂ with _ | g₂
    · omega
    rcases hm : matchOptionAt s with _ | ⟨k, v, r⟩
    · rcases s with _ | ⟨c, rest⟩
      · simp only [optionFinditerF, hm]
      · rw [optionFinditerF_succ_none hm, optionFinditerF_succ_none hm]
        simp only [List.length_cons] at h₁ h₂
        exact ih rest g₂ (by omega) (by omega)
    · have hr := matchOptionAt_length hm
      rw [optionFinditerF_succ_some hm, optionFinditerF_succ_some hm,
        ih r g₂ (by omega) (by omega)]

theorem optionFinditer_nil : optionFinditer [] = [] := rfl

theorem optionFinditer_cons_some {s k v r : List Char}
    (h : matchOptionAt s = some (k, v, r)) :
    optionFinditer s = (String.mk k, String.mk v) :: optionFinditer r := by
  have hr := matchOptionAt_length h
  have e1 : optionFinditer s = optionFinditerF (s.length + 1) s := rfl
  rw [e1, optionFinditerF_succ_some h,
    optionFinditerF_irrel s.length r (r.length + 1) (by omega) (by omega)]
  rfl

theorem optionFinditer_cons_none {c : Char} {rest : List Char}
    (h : matchOptionAt (c :: rest) = none) :
    optionFinditer (c :: rest) = optionFinditer rest := by
  have e1 : optionFinditer (c :: rest)
      = optionFinditerF ((c :: rest).length + 1) (c :: rest) := rfl
  rw [e1, optionFinditerF_succ_none h]
  exact optionFinditerF_irrel (c :: rest).length rest (rest.length + 1)
    (by simp) (by omega)

theorem isPrefixOf_append_self (p u : List Char) :
    p.isPrefixOf (p ++ u) = true :=
  List.isPrefixOf_iff_prefix.mpr (List.prefix_append p u)

theorem isPrefixOf_append_of_le {pat : List Char} (u : List Char) :
    ∀ s : List Char, pat.length ≤ s.length →
      pat.isPrefixOf (s ++ u) = pat.isPrefixOf s := by
  induction pat with
  | nil => intro s _; simp [List.isPrefixOf]
  | cons p ps ih =>
    intro s hlen
    cases s with
    | nil => simp at hlen
    | cons b bs =>
      simp only [List.cons_append, List.isPrefixOf, List.append_eq]
      rw [ih bs (by simp only [List.length_cons] at hlen; omega)]

theorem splitFirst_cons_inv {pat : List Char} {a : Char} {s x b : List Char}
    (h : splitFirst pat (a :: s) = some (a :: x, b)) :
    pat.isPrefixOf (a :: s) = false ∧ splitFirst pat s = some (x, b) := by
  simp only [splitFirst] at h
  split at h
  · cases h
  · next hp =>
    rcases hmap : splitFirst pat s with _ | ⟨y, z⟩ <;> rw [hmap] at h
    · cases h
    · simp only [Option.map_some', Option.some.injEq, Prod.mk.injEq,
        List.cons.injEq, true_and] at h
      obtain ⟨hx, hb⟩ := h
      have hfalse : pat.isPrefixOf (a :: s) = false := by
        cases hip : pat.isPrefixOf (a :: s)
        · rfl
        · exact absurd hip hp
      exact ⟨hfalse, by rw [hx, hb]⟩

theorem splitFirst_self {pat u : List Char} :
    splitFirst pat (pat ++ u) = some ([], u) := by
  cases pat with
  | nil =>
    cases u with
    | nil => simp [splitFirst]
    | cons c rest => simp [splitFirst, List.isPrefixOf]
  | cons p ps =>
    have hpre := isPrefixOf_append_self (p :: ps) u
    simp only [List.cons_append] at hpre ⊢
    simp only [splitFirst, hpre, if_true]
    simp [List.drop_left']

theorem splitFirst_extend {pat : List Char} (u : List Char) :
    ∀ x : List Char, splitFirst pat (x ++ pat) = some (x, []) →
      splitFirst pat (x ++ (pat ++ u)) = some (x, u) := by
  intro x
  induction x with
  | nil => intro _; simpa using splitFirst_self
  | cons a x' ih =>
    intro h
    simp only [List.cons_append] at h ⊢
    obtain ⟨hfalse, h'⟩ := splitFirst_cons_inv h
    have hfalse' : pat.isPrefixOf (a :: (x' ++ (pat ++ u))) = false := by
      have hlen : pat.length ≤ (a :: (x' ++ pat)).length := by
        simp only [List.length_cons, List.length_append]
        omega
      calc pat.isPrefixOf (a :: (x' ++ (pat ++ u)))
          = pat.isPrefixOf ((a :: (x' ++ pat)) ++ u) := by
            simp [List.append_assoc]
        _ = pat.isPrefixOf (a :: (x' ++ pat)) :=
            isPrefixOf_append_of_le u _ hlen
        _ = false := hfalse
    simp only [splitFirst, hfalse', Bool.false_eq_true, if_false, ih h',
      Option.map_some']

theorem matchAfterDiv_here {s ct r : List Char}
    (hp : optEnd.isPrefixOf s = true)
    (hs : splitFirst contEnd (s.drop optEnd.length) = some (ct, r)) :
    matchAfterDiv s = some ([], ct, r) := by
  cases s with
  | nil => cases hp
  | cons c rest =>
    simp only [matchAfterDiv, hp, if_true, hs]

/-- The lazy `options` capture finds the marked split: if `optEnd` does not
occur in `o ++ optEnd` before its marked position, and `t` splits at the
first `contEnd`, then the match after `"<div"` is exactly `(o, content, r)`. -/
theorem matchAfterDiv_append {t ct r : List Char} (hs : splitFirst contEnd t = some (ct, r)) :
    ∀ o : List Char, splitFirst optEnd (o ++ optEnd) = some (o, []) →
      matchAfterDiv (o ++ (optEnd ++ t)) = some (o, ct, r) := by
  intro o
  induction o with
  | nil =>
    intro _
    simp only [List.nil_append]
    refine matchAfterDiv_here (isPrefixOf_append_self _ _) ?_
    rw [List.drop_left]
    exact hs
  | cons a o' ih =>
    intro h
    simp only [List.cons_append] at h ⊢
    obtain ⟨hfalse, h'⟩ := splitFirst_cons_inv h
    have hfalse' : optEnd.isPrefixOf (a :: (o' ++ (optEnd ++ t))) = false := by
      have hlen : optEnd.length ≤ (a :: (o' ++ optEnd)).length := by
        simp only [List.length_cons, List.length_append]
        omega
      calc optEnd.isPrefixOf (a :: (o' ++ (optEnd ++ t)))
          = optEnd.isPrefixOf ((a :: (o' ++ optEnd)) ++ t) := by
            simp [List.append_assoc]
        _ = optEnd.isPrefixOf (a :: (o' ++ optEnd)) :=
            isPrefixOf_append_of_le t _ hlen
        _ = false := hfalse
    have hstep := ih h'
    cases hmm : matchAfterDiv (o' ++ (optEnd ++ t)) <;> rw [hmm] at hstep
    · cases hstep
    · simp only [matchAfterDiv, hfalse', Bool.false_eq_true, if_false, hmm]
      rw [hstep]
      rfl

theorem tryTiddlerAt_mkBlock {o ct : List Char} (u : List Char)
    (h1 : splitFirst optEnd (o ++ optEnd) = some (o, []))
    (h2 : splitFirst contEnd (ct ++ contEnd) = some (ct, [])) :
    tryTiddlerAt (mkBlock o ct ++ u) = some (o, ct, u) := by
  have hblock : mkBlock o ct ++ u
      = divOpen ++ (o ++ (optEnd ++ (ct ++ (contEnd ++ u)))) := by
    simp [mkBlock, List.append_assoc]
  rw [hblock]
  have hcont : splitFirst contEnd (ct ++ (contEnd ++ u)) = some (ct, u) :=
    splitFirst_extend u ct h2
  simp only [tryTiddlerAt, isPrefixOf_append_self, if_true, List.drop_left]
  exact matchAfterDiv_append hcont o h1

/-- C5: for every input buffer consisting of two adjacent record blocks
(each well-marked: the `">\n<pre>"` marker does not occur early in
`options ++ ">\n<pre>"` and the `"</pre>\n</div>"` marker does not occur
early in `content ++ "</pre>\n</div>"`), the Record Matcher produces two
separate, non-overlapping matches in order — the first match's content stops
at its own closing marker and never extends into the second block. -/
theorem c5_adjacent_blocks_not_merged (o₁ c₁ o₂ c₂ : List Char)
    (h1 : splitFirst optEnd (o₁ ++ optEnd) = some (o₁, []))
    (h2 : splitFirst contEnd (c₁ ++ contEnd) = some (c₁, []))
    (h3 : splitFirst optEnd (o₂ ++ optEnd) = some (o₂, []))
    (h4 : splitFirst contEnd (c₂ ++ contEnd) = some (c₂, [])) :
    tiddlerMatches (mkBlock o₁ c₁ ++ mkBlock o₂ c₂)
      = (o₁, c₁) :: (o₂, c₂) :: [] := by
  have e1 := tiddlerMatches_cons_some
    (tryTiddlerAt_mkBlock (mkBlock o₂ c₂) h1 h2)
  have hb2 : tryTiddlerAt (mkBlock o₂ c₂) = some (o₂, c₂, []) := by
    have := tryTiddlerAt_mkBlock [] h3 h4
    rwa [List.append_nil] at this
  have e2 := tiddlerMatches_cons_some hb2
  rw [e1, e2, tiddlerMatches_nil]

/-- Witness for C5 at a concrete pair of adjacent blocks whose first content
contains `"</div>"` in an unrelated context. -/
theorem c5_witness :
    splitFirst contEnd (("x </div> y").toList ++ contEnd)
      = some (("x </div> y").toList, []) ∧
    tiddlerMatches
        (mkBlock (" t=\"a\"").toList ("x </div> y").toList
          ++ mkBlock (" t=\"b\"").toList ("z").toList)
      = ((" t=\"a\"").toList, ("x </div> y").toList)
        :: ((" t=\"b\"").toList, ("z").toList) :: [] :=
  ⟨by decide,
   c5_adjacent_blocks_not_merged (" t=\"a\"").toList ("x </div> y").toList
     (" t=\"b\"").toList ("z").toList
     (by decide) (by decide) (by decide) (by decide)⟩

theorem find?_map_overwrite (k v : String) :
    ∀ d : List (String × String), d.any (fun p => p.1 == k) = true →
      (d.map fun p => if p.1 == k then (k, v) else p).find? (fun p => p.1 == k)
        = some (k, v) := by
  intro d
  induction d with
  | nil => intro h; cases h
  | cons p d' ih =>
    intro h
    simp only [List.map_cons]
    by_cases hp : (p.1 == k) = true
    · rw [if_pos hp, List.find?_cons_of_pos _ (by simp)]
    · have hpf : (p.1 == k) = false := by
        cases hb : (p.1 == k)
        · rfl
        · exact absurd hb hp
      have h' : d'.any (fun p => p.1 == k) = true := by
        simp only [List.any_cons, hpf, Bool.false_or] at h
        exact h
      rw [if_neg (by simp [hpf]), List.find?_cons_of_neg _ (by simp [hpf])]
      exact ih h'

theorem find?_map_other (k v k' : String) (hne : k' ≠ k) :
    ∀ d : List (String × String),
      (d.map fun p => if p.1 == k then (k, v) else p).find? (fun p => p.1 == k')
        = d.find? (fun p => p.1 == k') := by
  intro d
  induction d with
  | nil => rfl
  | cons p d' ih =>
    simp only [List.map_cons]
    by_cases hp : (p.1 == k) = true
    · have hp1 : p.1 = k := eq_of_beq hp
      have hck : (k == k') = false :=
        beq_eq_false_iff_ne.mpr fun hh => hne hh.symm
      have hck' : (p.1 == k') = false := by
        rw [hp1]; exact hck
      rw [if_pos hp]
      simp only [List.find?_cons, hck, hck']
      exact ih
    · rw [if_neg hp]
      cases hq : (p.1 == k')
      · simp only [List.find?_cons, hq]
        exact ih
      · simp only [List.find?_cons, hq]

theorem find?_any_false (k : String) (d : List (String × String))
    (h : d.any (fun p => p.1 == k) = false) :
    d.find? (fun p => p.1 == k) = none := by
  rw [List.find?_eq_none]
  intro x hx hpx
  have : d.any (fun p => p.1 == k) = true := List.any_eq_true.mpr ⟨x, hx, hpx⟩
  rw [h] at this
  cases this

theorem dictGet_dictInsert_self (d : List (String × String)) (k v : String) :
    dictGet (dictInsert d k v) k = some v := by
  unfold dictInsert dictGet
  split
  · next hany => rw [find?_map_overwrite k v d hany]; rfl
  · next hany =>
    have hanyf : (d.any fun p => p.1 == k) = false := by
      cases hb : (d.any fun p => p.1 == k)
      · rfl
      · exact absurd hb hany
    have hnone : d.find? (fun p => p.1 == k) = none :=
      find?_any_false k d hanyf
    rw [List.find?_append, hnone, List.find?_cons_of_pos _ (by simp)]
    rfl

theorem dictGet_dictInsert_other (d : List (String × String)) (k v k' : String)
    (hne : k' ≠ k) :
    dictGet (dictInsert d k v) k' = dictGet d k' := by
  unfold dictInsert dictGet
  split
  · rw [find?_map_other k v k' hne]
  · rw [List.find?_append]
    have hck : (k == k') = false := by
      exact beq_eq_false_iff_ne.mpr fun hh => hne hh.symm
    simp [List.find?_cons, hck]

theorem getLast?_cons_getD {α : Type} (xs : List α) :
    ∀ x : α, (x :: xs).getLast? = some (xs.getLast?.getD x) := by
  induction xs with
  | nil => intro x; rfl
  | cons y ys ih =>
    intro x
    rw [List.getLast?_cons_cons, ih y]
    rfl

theorem dictGet_foldl (k : String) :
    ∀ (l d : List (String × String)),
      dictGet (l.foldl (fun d kv => dictInsert d kv.1 kv.2) d) k
        = match (l.filter fun p => p.1 == k).getLast? with
          | some p => some p.2
          | none => dictGet d k := by
  intro l
  induction l with
  | nil => intro d; rfl
  | cons kv l' ih =>
    intro d
    simp only [List.foldl_cons]
    rw [ih (dictInsert d kv.1 kv.2)]
    by_cases hk : kv.1 == k
    · have hfil : (kv :: l').filter (fun p => p.1 == k)
          = kv :: (l'.filter fun p => p.1 == k) := by
        simp [List.filter_cons, hk]
      rw [hfil, getLast?_cons_getD]
      cases hl : (l'.filter fun p => p.1 == k).getLast? with
      | none =>
        simp only [Option.getD_none]
        have hk1 : kv.1 = k := eq_of_beq hk
        rw [← hk1]
        exact dictGet_dictInsert_self d kv.1 kv.2
      | some p => simp
    · have hfil : (kv :: l').filter (fun p => p.1 == k)
          = l'.filter fun p => p.1 == k := by
        simp [List.filter_cons, hk]
      rw [hfil]
      cases hl : (l'.filter fun p => p.1 == k).getLast? with
      | none =>
        have hne : k ≠ kv.1 := by
          intro hh
          rw [hh] at hk
          simp at hk
        exact dictGet_dictInsert_other d kv.1 kv.2 k hne
      | some p => rfl

/-- C7: for every options string and key, the Attribute Tokenizer's mapping
holds the value of the last matched `key="value"` fragment for that key
(`none` when no fragment has the key); fragments that do not match the
syntax contribute nothing and never make the tokenization fail — the
equation holds for arbitrary options strings. -/
theorem c7_tokenizer_last_occurrence_wins (s : List Char) (k : String) :
    dictGet (attrsOf s) k
      = (((optionFinditer s).filter fun p => p.1 == k).getLast?).map
          fun p => p.2 := by
  rw [attrsOf, dictGet_foldl k (optionFinditer s) []]
  cases h : ((optionFinditer s).filter fun p => p.1 == k).getLast? with
  | none => rfl
  | some p => rfl

theorem buildTiddler_created_none {attr : List (String × String)}
    {c : List Char} {tg : Option (List String)} {md : Option Date}
    (h : dictGet attr "created" = none) :
    buildTiddler attr c tg md = .ok none := by
  simp only [buildTiddler, h]

theorem buildTiddler_created_bad {attr : List (String × String)}
    {c : List Char} {tg : Option (List String)} {md : Option Date} {cs : String}
    (h : dictGet attr "created" = some cs) (hp : string_to_date cs = none) :
    buildTiddler attr c tg md = .error .valueError := by
  simp only [buildTiddler, h, hp]

theorem buildTiddler_title_none {attr : List (String × String)}
    {c : List Char} {tg : Option (List String)} {md : Option Date}
    {cs : String} {cd : Date}
    (h : dictGet attr "created" = some cs) (hp : string_to_date cs = some cd)
    (ht : dictGet attr "title" = none) :
    buildTiddler attr c tg md = .ok none := by
  simp only [buildTiddler, h, hp, ht]

theorem buildTiddler_title_sys {attr : List (String × String)}
    {c : List Char} {tg : Option (List String)} {md : Option Date}
    {cs : String} {cd : Date} {ti : String}
    (h : dictGet attr "created" = some cs) (hp : string_to_date cs = some cd)
    (ht : dictGet attr "title" = some ti) (hs : startsWithSys ti = true) :
    buildTiddler attr c tg md = .ok none := by
  simp only [buildTiddler, h, hp, ht, hs, if_true]

theorem buildTiddler_collision {attr : List (String × String)}
    {c : List Char} {tg : Option (List String)} {md : Option Date}
    {cs : String} {cd : Date} {ti : String}
    (h : dictGet attr "created" = some cs) (hp : string_to_date cs = some cd)
    (ht : dictGet attr "title" = some ti) (hs : startsWithSys ti = false)
    (hc : ((dictGet attr "content").isSome || (dictGet attr "self").isSome) = true) :
    buildTiddler attr c tg md = .error .typeError := by
  simp only [buildTiddler, h, hp, ht, hs, hc, Bool.false_eq_true, if_false,
    if_true]

theorem buildTiddler_success {attr : List (String × String)}
    {c : List Char} {tg : Option (List String)} {md : Option Date}
    {cs : String} {cd : Date} {ti : String}
    (h : dictGet attr "created" = some cs) (hp : string_to_date cs = some cd)
    (ht : dictGet attr "title" = some ti) (hs : startsWithSys ti = false)
    (hc : (dictGet attr "content").isSome = false)
    (hsf : (dictGet attr "self").isSome = false) :
    buildTiddler attr c tg md
      = .ok (some (tiddlerInit (String.mk c) (some ti) tg (some cd) md
          (dictGet attr "type") (extrasOf attr))) := by
  simp only [buildTiddler, h, hp, ht, hs, hc, hsf, Bool.or_self,
    Bool.false_eq_true, if_false]

theorem processMatch_mod_none {o c : List Char}
    (h : dictGet (attrsOf o) "modified" = none) :
    processMatch o c
      = buildTiddler (attrsOf o) c ((dictGet (attrsOf o) "tags").map get_tag_list)
          none := by
  simp only [processMatch, h]

theorem processMatch_mod_bad {o c : List Char} {ms : String}
    (h : dictGet (attrsOf o) "modified" = some ms)
    (hp : string_to_date ms = none) :
    processMatch o c = .error .valueError := by
  simp only [processMatch, h, hp]

theorem processMatch_mod_some {o c : List Char} {ms : String} {md : Date}
    (h : dictGet (attrsOf o) "modified" = some ms)
    (hp : string_to_date ms = some md) :
    processMatch o c
      = buildTiddler (attrsOf o) c ((dictGet (attrsOf o) "tags").map get_tag_list)
          (some md) := by
  simp only [processMatch, h, hp]

theorem buildTiddler_ok_some_inv {attr : List (String × String)}
    {c : List Char} {tg : Option (List String)} {md : Option Date} {t : Tiddler}
    (h : buildTiddler attr c tg md = .ok (some t)) :
    ∃ cs cd ti, dictGet attr "created" = some cs ∧ string_to_date cs = some cd ∧
      dictGet attr "title" = some ti ∧ startsWithSys ti = false ∧
      (dictGet attr "content").isSome = false ∧
      (dictGet attr "self").isSome = false ∧
      t = tiddlerInit (String.mk c) (some ti) tg (some cd) md
        (dictGet attr "type") (extrasOf attr) := by
  cases hcs : dictGet attr "created" with
  | none =>
    rw [buildTiddler_created_none hcs] at h
    simp at h
  | some cs =>
    cases hcd : string_to_date cs with
    | none =>
      rw [buildTiddler_created_bad hcs hcd] at h
      simp at h
    | some cd =>
      cases hti : dictGet attr "title" with
      | none =>
        rw [buildTiddler_title_none hcs hcd hti] at h
        simp at h
      | some ti =>
        cases hpre : startsWithSys ti with
        | true =>
          rw [buildTiddler_title_sys hcs hcd hti hpre] at h
          simp at h
        | false =>
          cases hcol : ((dictGet attr "content").isSome
              || (dictGet attr "self").isSome) with
          | true =>
            rw [buildTiddler_collision hcs hcd hti hpre hcol] at h
            simp at h
          | false =>
            have hcon : (dictGet attr "content").isSome = false := by
              cases hb : (dictGet attr "content").isSome
              · rfl
              · rw [hb] at hcol; simp at hcol
            have hself : (dictGet attr "self").isSome = false := by
              cases hb : (dictGet attr "self").isSome
              · rfl
              · rw [hb] at hcol; simp at hcol
            rw [buildTiddler_success hcs hcd hti hpre hcon hself] at h
            simp only [Except.ok.injEq, Option.some.injEq] at h
            exact ⟨cs, cd, ti, rfl, hcd, rfl, hpre, hcon, hself, h.symm⟩

/-- Inversion: a record yielded by the loop body is exactly the one
`recordOf` assembles from the options. -/
theorem processMatch_ok_some {o c : List Char} {t : Tiddler}
    (h : processMatch o c = .ok (some t)) : t = recordOf o c := by
  cases hmd : dictGet (attrsOf o) "modified" with
  | none =>
    rw [processMatch_mod_none hmd] at h
    obtain ⟨cs, cd, ti, hcs, hcd, hti, hpre, hcon, hself, ht⟩ :=
      buildTiddler_ok_some_inv h
    subst ht
    simp only [recordOf, hmd, hcs, hti, hcd, Option.some_bind, Option.none_bind]
  | some ms =>
    cases hp : string_to_date ms with
    | none =>
      rw [processMatch_mod_bad hmd hp] at h
      simp at h
    | some md =>
      rw [processMatch_mod_some hmd hp] at h
      obtain ⟨cs, cd, ti, hcs, hcd, hti, hpre, hcon, hself, ht⟩ :=
        buildTiddler_ok_some_inv h
      subst ht
      simp only [recordOf, hmd, hcs, hti, hcd, hp, Option.some_bind]

theorem processMatch_safe (o c : List Char) (hs : safeMatch o = true) :
    processMatch o c
      = .ok (if satisfiesRules o = true then some (recordOf o c) else none) := by
  simp only [safeMatch, Bool.and_eq_true] at hs
  obtain ⟨⟨⟨hmod, hcre⟩, hcon⟩, hself⟩ := hs
  have hcontn : dictGet (attrsOf o) "content" = none :=
    Option.isNone_iff_eq_none.mp hcon
  have hselfn : dictGet (attrsOf o) "self" = none :=
    Option.isNone_iff_eq_none.mp hself
  have hconf : (dictGet (attrsOf o) "content").isSome = false := by
    rw [hcontn]; rfl
  have hselff : (dictGet (attrsOf o) "self").isSome = false := by
    rw [hselfn]; rfl
  have main : ∀ md : Option Date,
      buildTiddler (attrsOf o) c ((dictGet (attrsOf o) "tags").map get_tag_list) md
        = .ok (if satisfiesRules o = true
            then some (tiddlerInit (String.mk c) (dictGet (attrsOf o) "title")
              ((dictGet (attrsOf o) "tags").map get_tag_list)
              (Option.bind (dictGet (attrsOf o) "created") string_to_date) md
              (dictGet (attrsOf o) "type") (extrasOf (attrsOf o)))
            else none) := by
    intro md
    cases hcs : dictGet (attrsOf o) "created" with
    | none =>
      rw [buildTiddler_created_none hcs]
      have hr : satisfiesRules o = false := by
        simp only [satisfiesRules, hcs, Option.none_bind, Option.isSome_none,
          Bool.false_and]
      rw [hr, if_neg (by simp)]
    | some cs =>
      simp only [hcs] at hcre
      cases hcd : string_to_date cs with
      | none => rw [hcd] at hcre; simp at hcre
      | some cd =>
        cases hti : dictGet (attrsOf o) "title" with
        | none =>
          rw [buildTiddler_title_none hcs hcd hti]
          have hr : satisfiesRules o = false := by
            simp only [satisfiesRules, hti, Bool.and_false]
          rw [hr, if_neg (by simp)]
        | some ti =>
          cases hpre : startsWithSys ti with
          | true =>
            rw [buildTiddler_title_sys hcs hcd hti hpre]
            have hr : satisfiesRules o = false := by
              simp only [satisfiesRules, hti, hpre, Bool.not_true,
                Bool.and_false]
            rw [hr, if_neg (by simp)]
          | false =>
            rw [buildTiddler_success hcs hcd hti hpre hconf hselff]
            have hr : satisfiesRules o = true := by
              simp only [satisfiesRules, hcs, hcd, hti, hpre, Option.some_bind,
                Option.isSome_some, Bool.not_false, Bool.and_self]
            rw [hr, if_pos rfl]
            simp only [hcs, hcd, hti, Option.some_bind]
  cases hmd : dictGet (attrsOf o) "modified" with
  | none =>
    have e : recordOf o c
        = tiddlerInit (String.mk c) (dictGet (attrsOf o) "title")
            ((dictGet (attrsOf o) "tags").map get_tag_list)
            (Option.bind (dictGet (attrsOf o) "created") string_to_date) none
            (dictGet (attrsOf o) "type") (extrasOf (attrsOf o)) := by
      simp only [recordOf, hmd, Option.none_bind]
    rw [processMatch_mod_none hmd, main none, e]
  | some ms =>
    simp only [hmd] at hmod
    cases hps : string_to_date ms with
    | none => rw [hps] at hmod; simp at hmod
    | some md =>
      have e : recordOf o c
          = tiddlerInit (String.mk c) (dictGet (attrsOf o) "title")
              ((dictGet (attrsOf o) "tags").map get_tag_list)
              (Option.bind (dictGet (attrsOf o) "created") string_to_date)
              (some md)
              (dictGet (attrsOf o) "type") (extrasOf (attrsOf o)) := by
        simp only [recordOf, hmd, hps, Option.some_bind]
      rw [processMatch_mod_some hmd hps, main (some md), e]

theorem scanEvents_cons_yield {o c : List Char}
    {rest : List (List Char × List Char)} {t : Tiddler}
    (h : processMatch o c = .ok (some t)) :
    scanEvents ((o, c) :: rest) = .ok t :: scanEvents rest := by
  simp only [scanEvents, h]

theorem scanEvents_cons_skip {o c : List Char}
    {rest : List (List Char × List Char)}
    (h : processMatch o c = .ok none) :
    scanEvents ((o, c) :: rest) = scanEvents rest := by
  simp only [scanEvents, h]

theorem scanEvents_cons_raise {o c : List Char}
    {rest : List (List Char × List Char)} {e : PyError}
    (h : processMatch o c = .error e) :
    scanEvents ((o, c) :: rest) = .error e :: [] := by
  simp only [scanEvents, h]

theorem scanEvents_safe :
    ∀ l : List (List Char × List Char),
      (∀ m ∈ l, safeMatch m.1 = true) →
      scanEvents l
        = (l.filter fun m => satisfiesRules m.1).map
            fun m => Except.ok (recordOf m.1 m.2) := by
  intro l
  induction l with
  | nil => intro _; rfl
  | cons m l' ih =>
    intro hall
    rcases m with ⟨o, c⟩
    have hm : safeMatch o = true := hall (o, c) (by simp)
    have hl' : ∀ x ∈ l', safeMatch x.1 = true := fun x hx =>
      hall x (List.mem_cons_of_mem _ hx)
    cases hr : satisfiesRules o with
    | false =>
      have hpm : processMatch o c = .ok none := by
        rw [processMatch_safe o c hm, if_neg (by simp [hr])]
      rw [scanEvents_cons_skip hpm, List.filter_cons,
        if_neg (by simp [hr]), ih hl']
    | true =>
      have hpm : processMatch o c = .ok (some (recordOf o c)) := by
        rw [processMatch_safe o c hm, if_pos hr]
      rw [scanEvents_cons_yield hpm, List.filter_cons, if_pos (by simp [hr]),
        List.map_cons, ih hl']

/-- C1 (amended): for every input buffer in which every matched block is
exception-safe — its `created` and `modified` values, when present, parse
successfully, and no attribute is keyed `content` or `self` — the extraction
sequence yields, in source order, exactly one Record per matched block whose
attributes satisfy the inclusion rules (created present and parsing, title
present, title not `$:/`-prefixed), and yields no Record for any other
block.  (As stated, without the exception-safety proviso, the claim fails:
see the counterexample.) -/
theorem c1_finditer_yields_satisfying_blocks (buffer : List Char)
    (hsafe : ∀ m ∈ tiddlerMatches buffer, safeMatch m.1 = true) :
    finditer buffer
      = ((tiddlerMatches buffer).filter fun m => satisfiesRules m.1).map
          fun m => Except.ok (recordOf m.1 m.2) :=
  scanEvents_safe (tiddlerMatches buffer) hsafe

/-- C1 counterexample: this buffer holds one record block that satisfies all
three inclusion rules (its `created` parses, its `title` is present and not
`$:/`-prefixed), yet the extraction sequence yields zero records — the
attribute `content="boom"` collides with the constructor's positional
`content` parameter and aborts the scan, so "exactly one Record per
satisfying block" is false on this input. -/
theorem c1_counterexample :
    (((tiddlerMatches ("<div title=\"a\" created=\"20180101000000000\" content=\"boom\">\n<pre>x</pre>\n</div>").toList).filter
        fun m => satisfiesRules m.1).length = 1) ∧
    yielded ("<div title=\"a\" created=\"20180101000000000\" content=\"boom\">\n<pre>x</pre>\n</div>").toList
      = [] :=
  ⟨by decide, by rfl⟩

/-- Witness for C1 on a three-block buffer (one valid block, one
`$:/`-titled block, one block with no `created`). -/
theorem c1_witness :
    (∀ m ∈ tiddlerMatches ("<div created=\"20180108222550419\" title=\"good one\" tags=\"[[multi word]] t2\" foo=\"bar\">\n<pre>hello</pre>\n</div><div created=\"20180101000000000\" title=\"$:/sys\">\n<pre>sys</pre>\n</div><div title=\"no created\">\n<pre>zzz</pre>\n</div>").toList,
        safeMatch m.1 = true) ∧
    finditer ("<div created=\"20180108222550419\" title=\"good one\" tags=\"[[multi word]] t2\" foo=\"bar\">\n<pre>hello</pre>\n</div><div created=\"20180101000000000\" title=\"$:/sys\">\n<pre>sys</pre>\n</div><div title=\"no created\">\n<pre>zzz</pre>\n</div>").toList
      = ((tiddlerMatches ("<div created=\"20180108222550419\" title=\"good one\" tags=\"[[multi word]] t2\" foo=\"bar\">\n<pre>hello</pre>\n</div><div created=\"20180101000000000\" title=\"$:/sys\">\n<pre>sys</pre>\n</div><div title=\"no created\">\n<pre>zzz</pre>\n</div>").toList).filter
          fun m => satisfiesRules m.1).map
            fun m => Except.ok (recordOf m.1 m.2) :=
  ⟨by decide,
   c1_finditer_yields_satisfying_blocks
     ("<div created=\"20180108222550419\" title=\"good one\" tags=\"[[multi word]] t2\" foo=\"bar\">\n<pre>hello</pre>\n</div><div created=\"20180101000000000\" title=\"$:/sys\">\n<pre>sys</pre>\n</div><div title=\"no created\">\n<pre>zzz</pre>\n</div>").toList
     (by decide)⟩

/-- C2 (the code evaluated at the failing input): a record block whose
`created` attribute is present but malformed does not produce a silent skip —
the parse error escapes the `except KeyError` handler, so the scan's event
stream is a single uncaught `ValueError` and the candidate is not skipped
with the scan continuing. -/
theorem c2_malformed_created_aborts_scan :
    finditer ("<div title=\"a\" created=\"not17digits\">\n<pre>x</pre>\n</div>").toList
      = .error PyError.valueError :: [] := rfl

/-- C3 (the code evaluated at the failing input): a record block whose
`modified` attribute is present but malformed is not yielded with a default
`modified` — the parse error escapes the `except KeyError` handler and the
scan's event stream is a single uncaught `ValueError`, although the block
satisfies every inclusion rule. -/
theorem c3_malformed_modified_aborts_scan :
    finditer ("<div title=\"a\" created=\"20180101000000000\" modified=\"bad\">\n<pre>x</pre>\n</div>").toList
      = .error PyError.valueError :: [] := rfl

/-- C4: the convenience single-record lookup returns the explicit absent
result (`.ok none`, never an exception) on a buffer with zero record blocks,
and returns the first yielded Record whenever the extraction sequence starts
with a yield. -/
theorem c4_parse_from_string_first_or_none (buffer : List Char) :
    (tiddlerMatches buffer = [] → parse_from_string buffer = .ok none) ∧
    ∀ (t : Tiddler) (es : List (Except PyError Tiddler)),
      finditer buffer = .ok t :: es → parse_from_string buffer = .ok (some t) := by
  constructor
  · intro h
    have hfin : finditer buffer = [] := by
      unfold finditer
      rw [h]
      rfl
    unfold parse_from_string
    rw [hfin]
    rfl
  · intro t es h
    unfold parse_from_string
    rw [h]
    rfl

/-- Witness for C4 on a buffer with no record blocks and on a buffer with one
valid record block. -/
theorem c4_witness :
    (tiddlerMatches ("just some text").toList = [] ∧
      parse_from_string ("just some text").toList = .ok none) ∧
    (finditer ("<div created=\"20180102030405678\" title=\"w\">\n<pre>body</pre>\n</div>").toList
        = .ok (⟨"body", some "w", [], some ⟨2018, 1, 2, 3, 4, 5, 678⟩, none,
            "text/vnd.tiddlywiki", []⟩ : Tiddler) :: [] ∧
      parse_from_string ("<div created=\"20180102030405678\" title=\"w\">\n<pre>body</pre>\n</div>").toList
        = .ok (some (⟨"body", some "w", [], some ⟨2018, 1, 2, 3, 4, 5, 678⟩,
            none, "text/vnd.tiddlywiki", []⟩ : Tiddler))) :=
  ⟨⟨by rfl, (c4_parse_from_string_first_or_none ("just some text").toList).1 (by rfl)⟩,
   ⟨by rfl,
    (c4_parse_from_string_first_or_none
        ("<div created=\"20180102030405678\" title=\"w\">\n<pre>body</pre>\n</div>").toList).2
      (⟨"body", some "w", [], some ⟨2018, 1, 2, 3, 4, 5, 678⟩, none,
        "text/vnd.tiddlywiki", []⟩ : Tiddler) [] (by rfl)⟩⟩

/-- C6: a Record constructed by the extraction pipeline always carries its
tags as a list (never an absent value): the field equals the normalized
`tags` attribute when that attribute is present, and the empty list when it
is missing. -/
theorem c6_tags_default_empty (o c : List Char) (t : Tiddler)
    (h : processMatch o c = .ok (some t)) :
    t.tags = ((dictGet (attrsOf o) "tags").map get_tag_list).getD [] ∧
    (dictGet (attrsOf o) "tags" = none → t.tags = []) := by
  have ht := processMatch_ok_some h
  subst ht
  constructor
  · simp only [recordOf, tiddlerInit]
  · intro hnone
    simp only [recordOf, tiddlerInit, hnone, Option.map_none', Option.getD_none]

/-- Witness for C6 on a record block with no `tags` attribute. -/
theorem c6_witness :
    processMatch (" title=\"w\" created=\"20180102030405678\"").toList
        ("body").toList
      = .ok (some (⟨"body", some "w", [], some ⟨2018, 1, 2, 3, 4, 5, 678⟩,
          none, "text/vnd.tiddlywiki", []⟩ : Tiddler)) ∧
    (⟨"body", some "w", [], some ⟨2018, 1, 2, 3, 4, 5, 678⟩, none,
        "text/vnd.tiddlywiki", []⟩ : Tiddler).tags = [] :=
  ⟨by rfl,
   (c6_tags_default_empty (" title=\"w\" created=\"20180102030405678\"").toList
      ("body").toList
      (⟨"body", some "w", [], some ⟨2018, 1, 2, 3, 4, 5, 678⟩, none,
        "text/vnd.tiddlywiki", []⟩ : Tiddler) (by rfl)).2 (by rfl)⟩

theorem dictGet_extrasOf (attr : List (String × String)) (k : String)
    (hk : recognizedKeys.contains k = false) :
    dictGet (extrasOf attr) k = dictGet attr k := by
  unfold extrasOf dictGet
  induction attr with
  | nil => rfl
  | cons p d ih =>
    simp only [List.filter_cons]
    cases hp : (p.1 == k) with
    | true =>
      have hp1 : p.1 = k := eq_of_beq hp
      have hcp : recognizedKeys.contains p.1 = false := by rw [hp1]; exact hk
      rw [if_pos (show (!recognizedKeys.contains p.1) = true by rw [hcp]; rfl)]
      simp only [List.find?_cons, hp]
    | false =>
      cases hcp : recognizedKeys.contains p.1 with
      | true =>
        rw [if_neg (by simp)]
        simp only [List.find?_cons, hp]
        exact ih
      | false =>
        rw [if_pos (by rfl)]
        simp only [List.find?_cons, hp]
        exact ih

theorem dictGet_filter (q : String → Bool) (k : String) (hq : q k = true)
    (l : List (String × String)) :
    dictGet (l.filter fun p => q p.1) k = dictGet l k := by
  unfold dictGet
  induction l with
  | nil => rfl
  | cons p d ih =>
    simp only [List.filter_cons]
    cases hp : (p.1 == k) with
    | true =>
      have hp1 : p.1 = k := eq_of_beq hp
      rw [if_pos (show q p.1 = true by rw [hp1]; exact hq)]
      simp only [List.find?_cons, hp]
    | false =>
      cases hqp : q p.1 with
      | true =>
        rw [if_pos rfl]
        simp only [List.find?_cons, hp]
        exact ih
      | false =>
        rw [if_neg (by decide)]
        simp only [List.find?_cons, hp]
        exact ih

/-- Counterexample to C8 as stated: the attribute key `type_` is not
recognized as a first-class field (the recognized keys are `title`, `tags`,
`created`, `modified`, `type`), yet it is not preserved in the constructed
Record's extra-attributes mapping.  `self.__dict__.update(kwargs)`
(Tiddler.py line 29) injects kwargs as dynamic attributes by reflection, so
the `type_` entry overwrites the first-class `type_` field set on line 28
and is absent from the record's remaining dynamic attributes. -/
theorem c8_counterexample :
    recognizedKeys.contains "type_" = false ∧
    dictGet (attrsOf (" title=\"a\" created=\"20180101000000000\" type_=\"application/json\"").toList)
        "type_" = some "application/json" ∧
    processMatch (" title=\"a\" created=\"20180101000000000\" type_=\"application/json\"").toList
        ("x").toList
      = .ok (some (⟨"x", some "a", [], some ⟨2018, 1, 1, 0, 0, 0, 0⟩, none,
          "application/json", []⟩ : Tiddler)) ∧
    dictGet (⟨"x", some "a", [], some ⟨2018, 1, 1, 0, 0, 0, 0⟩, none,
        "application/json", []⟩ : Tiddler).extra "type_" = none :=
  ⟨by decide, by rfl, by rfl, by rfl⟩

/-- C8 amended: unrecognized attribute keys become dynamic instance
attributes via `self.__dict__.update(kwargs)` — reflection-based injection,
not an explicit extras mapping.  For every key other than the literal
`type_` the value is still preserved verbatim among the record's dynamic
attributes, so lookup there agrees with the block's full attribute mapping;
a key literally named `type_`, however, is routed onto the first-class
`type_` field, whose value it overwrites. -/
theorem c8_extra_attributes_dynamic (o c : List Char) (t : Tiddler)
    (k : String) (h : processMatch o c = .ok (some t))
    (hk : recognizedKeys.contains k = false) :
    (k ≠ "type_" → dictGet t.extra k = dictGet (attrsOf o) k) ∧
    (∀ v, dictGet (attrsOf o) "type_" = some v → t.type_ = v) := by
  have ht := processMatch_ok_some h
  subst ht
  have hx : (recordOf o c).extra
      = (extrasOf (attrsOf o)).filter fun p => !(p.1 == "type_") := by
    simp only [recordOf, tiddlerInit]
  have hty : (recordOf o c).type_
      = (dictGet (extrasOf (attrsOf o)) "type_").getD
          ((dictGet (attrsOf o) "type").getD "text/vnd.tiddlywiki") := by
    simp only [recordOf, tiddlerInit]
  constructor
  · intro hne
    rw [hx]
    have hq : (!(k == "type_")) = true := by
      rw [beq_eq_false_iff_ne.mpr hne]; rfl
    rw [dictGet_filter (fun s => !(s == "type_")) k hq (extrasOf (attrsOf o))]
    exact dictGet_extrasOf (attrsOf o) k hk
  · intro v hv
    rw [hty, dictGet_extrasOf (attrsOf o) "type_" (by decide), hv]
    rfl

/-- Witness for C8 on a record block carrying both an ordinary unrecognized
attribute `foo="bar"` and the clobbering key `type_="text/html"`. -/
theorem c8_witness :
    processMatch (" title=\"w\" created=\"20180102030405678\" foo=\"bar\" type_=\"text/html\"").toList
        ("x").toList
      = .ok (some (⟨"x", some "w", [], some ⟨2018, 1, 2, 3, 4, 5, 678⟩, none,
          "text/html", ("foo", "bar") :: []⟩ : Tiddler)) ∧
    recognizedKeys.contains "foo" = false ∧
    ("foo" ≠ "type_" ∧
      dictGet (⟨"x", some "w", [], some ⟨2018, 1, 2, 3, 4, 5, 678⟩, none,
          "text/html", ("foo", "bar") :: []⟩ : Tiddler).extra "foo"
        = dictGet (attrsOf (" title=\"w\" created=\"20180102030405678\" foo=\"bar\" type_=\"text/html\"").toList) "foo") ∧
    (dictGet (attrsOf (" title=\"w\" created=\"20180102030405678\" foo=\"bar\" type_=\"text/html\"").toList)
        "type_" = some "text/html" ∧
      (⟨"x", some "w", [], some ⟨2018, 1, 2, 3, 4, 5, 678⟩, none,
          "text/html", ("foo", "bar") :: []⟩ : Tiddler).type_ = "text/html") :=
  ⟨by rfl, by decide,
   ⟨by decide,
    (c8_extra_attributes_dynamic
       (" title=\"w\" created=\"20180102030405678\" foo=\"bar\" type_=\"text/html\"").toList
       ("x").toList
       (⟨"x", some "w", [], some ⟨2018, 1, 2, 3, 4, 5, 678⟩, none,
         "text/html", ("foo", "bar") :: []⟩ : Tiddler)
       "foo" (by rfl) (by decide)).1 (by decide)⟩,
   ⟨by rfl,
    (c8_extra_attributes_dynamic
       (" title=\"w\" created=\"20180102030405678\" foo=\"bar\" type_=\"text/html\"").toList
       ("x").toList
       (⟨"x", some "w", [], some ⟨2018, 1, 2, 3, 4, 5, 678⟩, none,
         "text/html", ("foo", "bar") :: []⟩ : Tiddler)
       "foo" (by rfl) (by decide)).2 "text/html" (by rfl)⟩⟩

/-- C10: there is an input buffer — one whose record block carries an
attribute literally named `content` and otherwise satisfies the inclusion
rules — on which record construction raises a `TypeError` (the attribute
collides with the constructor's positional `content` parameter), so the scan
aborts with an exception instead of yielding or skipping the block. -/
theorem c10_content_attribute_type_error :
    finditer ("<div title=\"b\" created=\"20180101000000000\" content=\"y\">\n<pre>z</pre>\n</div>").toList
      = .error PyError.typeError :: [] := rfl

theorem get_tag_list_eq (s : String) : get_tag_list s = parseTags s.toList :=
  rfl

theorem mk_toList (s : String) : String.mk s.toList = s := rfl

theorem digitChar_isDigit {m : Nat} (h : m < 10) :
    (Nat.digitChar m).isDigit = true := by
  interval_cases m <;> decide

theorem digitChar_toNat {m : Nat} (h : m < 10) :
    (Nat.digitChar m).toNat - '0'.toNat = m := by
  interval_cases m <;> decide

theorem padNum_length : ∀ (w n : Nat), (padNum w n).length = w := by
  intro w
  induction w with
  | zero => intro n; rfl
  | succ v ih =>
    intro n
    simp only [padNum, List.length_cons, ih]

theorem padNum_all_digits : ∀ (w n : Nat), (padNum w n).all Char.isDigit = true := by
  intro w
  induction w with
  | zero => intro n; rfl
  | succ v ih =>
    intro n
    simp only [padNum, List.all_cons, ih, Bool.and_true]
    exact digitChar_isDigit (Nat.mod_lt _ (by omega))

theorem foldl_padNum :
    ∀ (w n a : Nat), n < 10 ^ w →
      List.foldl (fun a c => a * 10 + (c.toNat - '0'.toNat)) a (padNum w n)
        = a * 10 ^ w + n := by
  intro w
  induction w with
  | zero =>
    intro n a h
    simp only [pow_zero] at h
    interval_cases n
    simp [padNum]
  | succ v ih =>
    intro n a h
    have hlt : n / 10 ^ v < 10 := by
      apply Nat.div_lt_of_lt_mul
      have e : 10 ^ v * 10 = 10 ^ (v + 1) := (pow_succ 10 v).symm
      omega
    have hd : n / 10 ^ v % 10 = n / 10 ^ v := Nat.mod_eq_of_lt hlt
    have hmod : n % 10 ^ v < 10 ^ v := Nat.mod_lt _ (Nat.pos_pow_of_pos v (by omega))
    simp only [padNum, List.foldl_cons]
    rw [digitChar_toNat (by rw [hd]; exact hlt), ih (n % 10 ^ v) _ hmod, hd]
    have hdm := Nat.div_add_mod n (10 ^ v)
    have e : 10 ^ (v + 1) = 10 ^ v * 10 := pow_succ 10 v
    calc (a * 10 + n / 10 ^ v) * 10 ^ v + n % 10 ^ v
        = a * (10 ^ v * 10) + (10 ^ v * (n / 10 ^ v) + n % 10 ^ v) := by ring
      _ = a * (10 ^ v * 10) + n := by rw [hdm]
      _ = a * 10 ^ (v + 1) + n := by rw [← e]

theorem digitsToNat_padNum (w n : Nat) (h : n < 10 ^ w) :
    digitsToNat (padNum w n) = n := by
  have := foldl_padNum w n 0 h
  simpa [digitsToNat] using this

theorem string_to_date_date_chars (d : Date) (h : wfDate d = true) :
    string_to_date (String.mk (date_chars d)) = some d := by
  simp only [wfDate, Bool.and_eq_true, decide_eq_true_eq] at h
  obtain ⟨⟨⟨⟨⟨⟨hy, hmo⟩, hdy⟩, hho⟩, hmi⟩, hse⟩, hms⟩ := h
  have hlen : (date_chars d).length = 17 := by
    simp only [date_chars, List.length_append, padNum_length]
  have hdig : (date_chars d).all Char.isDigit = true := by
    simp only [date_chars, List.all_append, padNum_all_digits, Bool.and_self]
  have t0 : (date_chars d).take 4 = padNum 4 d.year := by
    have e := List.take_left (padNum 4 d.year)
      (padNum 2 d.month ++ (padNum 2 d.day ++ (padNum 2 d.hour
        ++ (padNum 2 d.minute ++ (padNum 2 d.second ++ padNum 3 d.millisecond)))))
    rw [padNum_length] at e
    exact e
  have d4 : (date_chars d).drop 4
      = padNum 2 d.month ++ (padNum 2 d.day ++ (padNum 2 d.hour
        ++ (padNum 2 d.minute ++ (padNum 2 d.second ++ padNum 3 d.millisecond)))) := by
    have e := List.drop_left (padNum 4 d.year)
      (padNum 2 d.month ++ (padNum 2 d.day ++ (padNum 2 d.hour
        ++ (padNum 2 d.minute ++ (padNum 2 d.second ++ padNum 3 d.millisecond)))))
    rw [padNum_length] at e
    exact e
  have d6 : (date_chars d).drop 6
      = padNum 2 d.day ++ (padNum 2 d.hour
        ++ (padNum 2 d.minute ++ (padNum 2 d.second ++ padNum 3 d.millisecond))) := by
    have e1 : (date_chars d).drop 6 = ((date_chars d).drop 4).drop 2 :=
      (List.drop_drop 2 4 _).symm
    rw [e1, d4]
    have e := List.drop_left (padNum 2 d.month)
      (padNum 2 d.day ++ (padNum 2 d.hour
        ++ (padNum 2 d.minute ++ (padNum 2 d.second ++ padNum 3 d.millisecond))))
    rw [padNum_length] at e
    exact e
  have d8 : (date_chars d).drop 8
      = padNum 2 d.hour
        ++ (padNum 2 d.minute ++ (padNum 2 d.second ++ padNum 3 d.millisecond)) := by
    have e1 : (date_chars d).drop 8 = ((date_chars d).drop 6).drop 2 :=
      (List.drop_drop 2 6 _).symm
    rw [e1, d6]
    have e := List.drop_left (padNum 2 d.day)
      (padNum 2 d.hour
        ++ (padNum 2 d.minute ++ (padNum 2 d.second ++ padNum 3 d.millisecond)))
    rw [padNum_length] at e
    exact e
  have d10 : (date_chars d).drop 10
      = padNum 2 d.minute ++ (padNum 2 d.second ++ padNum 3 d.millisecond) := by
    have e1 : (date_chars d).drop 10 = ((date_chars d).drop 8).drop 2 :=
      (List.drop_drop 2 8 _).symm
    rw [e1, d8]
    have e := List.drop_left (padNum 2 d.hour)
      (padNum 2 d.minute ++ (padNum 2 d.second ++ padNum 3 d.millisecond))
    rw [padNum_length] at e
    exact e
  have d12 : (date_chars d).drop 12
      = padNum 2 d.second ++ padNum 3 d.millisecond := by
    have e1 : (date_chars d).drop 12 = ((date_chars d).drop 10).drop 2 :=
      (List.drop_drop 2 10 _).symm
    rw [e1, d10]
    have e := List.drop_left (padNum 2 d.minute)
      (padNum 2 d.second ++ padNum 3 d.millisecond)
    rw [padNum_length] at e
    exact e
  have d14 : (date_chars d).drop 14 = padNum 3 d.millisecond := by
    have e1 : (date_chars d).drop 14 = ((date_chars d).drop 12).drop 2 :=
      (List.drop_drop 2 12 _).symm
    rw [e1, d12]
    have e := List.drop_left (padNum 2 d.second) (padNum 3 d.millisecond)
    rw [padNum_length] at e
    exact e
  have tmo : ((date_chars d).drop 4).take 2 = padNum 2 d.month := by
    rw [d4]
    have e := List.take_left (padNum 2 d.month)
      (padNum 2 d.day ++ (padNum 2 d.hour
        ++ (padNum 2 d.minute ++ (padNum 2 d.second ++ padNum 3 d.millisecond))))
    rw [padNum_length] at e
    exact e
  have tdy : ((date_chars d).drop 6).take 2 = padNum 2 d.day := by
    rw [d6]
    have e := List.take_left (padNum 2 d.day)
      (padNum 2 d.hour
        ++ (padNum 2 d.minute ++ (padNum 2 d.second ++ padNum 3 d.millisecond)))
    rw [padNum_length] at e
    exact e
  have tho : ((date_chars d).drop 8).take 2 = padNum 2 d.hour := by
    rw [d8]
    have e := List.take_left (padNum 2 d.hour)
      (padNum 2 d.minute ++ (padNum 2 d.second ++ padNum 3 d.millisecond))
    rw [padNum_length] at e
    exact e
  have tmi : ((date_chars d).drop 10).take 2 = padNum 2 d.minute := by
    rw [d10]
    have e := List.take_left (padNum 2 d.minute)
      (padNum 2 d.second ++ padNum 3 d.millisecond)
    rw [padNum_length] at e
    exact e
  have tse : ((date_chars d).drop 12).take 2 = padNum 2 d.second := by
    rw [d12]
    have e := List.take_left (padNum 2 d.second) (padNum 3 d.millisecond)
    rw [padNum_length] at e
    exact e
  have hcs : (String.mk (date_chars d)).toList = date_chars d := rfl
  simp only [string_to_date, hcs]
  rw [if_pos ⟨hlen, hdig⟩]
  rw [t0, tmo, tdy, tho, tmi, tse, d14]
  rw [digitsToNat_padNum 4 d.year (by norm_num; omega),
    digitsToNat_padNum 2 d.month (by norm_num; omega),
    digitsToNat_padNum 2 d.day (by norm_num; omega),
    digitsToNat_padNum 2 d.hour (by norm_num; omega),
    digitsToNat_padNum 2 d.minute (by norm_num; omega),
    digitsToNat_padNum 2 d.second (by norm_num; omega),
    digitsToNat_padNum 3 d.millisecond (by norm_num; omega)]

theorem parseTagsF_succ (fuel : Nat) (c : Char) (r : List Char) :
    parseTagsF (fuel + 1) (c :: r)
      = if c = ' ' then parseTagsF fuel r
        else if c = '[' ∧ r.head? = some '[' then
          match splitFirst (']' :: ']' :: []) r.tail with
          | some (tag, after) => String.mk tag :: parseTagsF fuel after
          | none => String.mk (c :: r) :: []
        else
          String.mk (c :: r.takeWhile fun a => a != ' ')
            :: parseTagsF fuel (r.dropWhile fun a => a != ' ') := rfl

theorem parseTagsF_irrel :
    ∀ (f₁ : Nat) (s : List Char) (f₂ : Nat), s.length < f₁ → s.length < f₂ →
      parseTagsF f₁ s = parseTagsF f₂ s := by
  intro f₁
  induction f₁ with
  | zero => intro s f₂ h₁; omega
  | succ g ih =>
    intro s f₂ h₁ h₂
    rcases f₂ with _ | g₂
    · omega
    rcases s with _ | ⟨c, rest⟩
    · rfl
    simp only [List.length_cons] at h₁ h₂
    rw [parseTagsF_succ g c rest, parseTagsF_succ g₂ c rest]
    by_cases hc : c = ' '
    · rw [if_pos hc, if_pos hc]
      exact ih rest g₂ (by omega) (by omega)
    · rw [if_neg hc, if_neg hc]
      by_cases hbr : c = '[' ∧ rest.head? = some '['
      · rw [if_pos hbr, if_pos hbr]
        cases hsp : splitFirst (']' :: ']' :: []) rest.tail with
        | none => rfl
        | some p =>
          rcases p with ⟨tag, after⟩
          have hsl := splitFirst_length hsp
          have htl : rest.tail.length ≤ rest.length := by
            cases rest <;> simp
          simp only [List.length_cons, List.length_nil] at hsl
          dsimp only
          rw [ih after g₂ (by omega) (by omega)]
      · rw [if_neg hbr, if_neg hbr]
        have hdw := length_dropWhile_le (fun a => a != ' ') rest
        rw [ih (rest.dropWhile fun a => a != ' ') g₂ (by omega) (by omega)]

theorem parseTags_nil : parseTags [] = [] := rfl

theorem parseTags_space (r : List Char) : parseTags (' ' :: r) = parseTags r := by
  have e1 : parseTags (' ' :: r)
      = parseTagsF ((' ' :: r).length + 1) (' ' :: r) := rfl
  rw [e1, parseTagsF_succ, if_pos rfl]
  exact parseTagsF_irrel (' ' :: r).length r (r.length + 1) (by simp) (by omega)

theorem parseTags_bracket {R tag after : List Char}
    (h : splitFirst (']' :: ']' :: []) R = some (tag, after)) :
    parseTags ('[' :: '[' :: R) = String.mk tag :: parseTags after := by
  have e1 : parseTags ('[' :: '[' :: R)
      = parseTagsF (('[' :: '[' :: R).length + 1) ('[' :: '[' :: R) := rfl
  rw [e1, parseTagsF_succ, if_neg (by decide), if_pos ⟨rfl, rfl⟩]
  simp only [List.tail_cons, h]
  have hsl := splitFirst_length h
  simp only [List.length_cons, List.length_nil] at hsl ⊢
  rw [parseTagsF_irrel (R.length + 1 + 1) after (after.length + 1) (by omega)
    (by omega)]
  rfl

theorem parseTags_bare {c : Char} {r : List Char} (hc : ¬ c = ' ')
    (hbr : ¬(c = '[' ∧ r.head? = some '[')) :
    parseTags (c :: r)
      = String.mk (c :: r.takeWhile fun a => a != ' ')
        :: parseTags (r.dropWhile fun a => a != ' ') := by
  have e1 : parseTags (c :: r) = parseTagsF ((c :: r).length + 1) (c :: r) := rfl
  rw [e1, parseTagsF_succ, if_neg hc, if_neg hbr]
  have hdw := length_dropWhile_le (fun a => a != ' ') r
  simp only [List.length_cons]
  rw [parseTagsF_irrel (r.length + 1) (r.dropWhile fun a => a != ' ')
    ((r.dropWhile fun a => a != ' ').length + 1) (by omega) (by omega)]
  rfl

theorem all_bne_space {l : List Char} (h : ' ' ∉ l) :
    (l.all fun a => a != ' ') = true := by
  rw [List.all_eq_true]
  intro x hx
  have hne : x ≠ ' ' := fun he => h (he ▸ hx)
  exact bne_iff_ne.mpr hne

theorem takeWhile_append_stop {p : Char → Bool} {b : Char} (r : List Char)
    (hb : p b = false) :
    ∀ l : List Char, l.all p = true →
      (l ++ (b :: r)).takeWhile p = l ∧ (l ++ (b :: r)).dropWhile p = b :: r := by
  intro l
  induction l with
  | nil =>
    intro _
    constructor
    · rw [List.nil_append, List.takeWhile_cons, if_neg (by rw [hb]; simp)]
    · rw [List.nil_append, List.dropWhile_cons, if_neg (by rw [hb]; simp)]
  | cons a l' ih =>
    intro hall
    simp only [List.all_cons, Bool.and_eq_true] at hall
    obtain ⟨ha, hl'⟩ := hall
    obtain ⟨iht, ihd⟩ := ih hl'
    constructor
    · rw [List.cons_append, List.takeWhile_cons, if_pos ha, iht]
    · rw [List.cons_append, List.dropWhile_cons, if_pos ha, ihd]

theorem splitFirst_single_notmem {q : Char} {rest : List Char} :
    ∀ v : List Char, q ∉ v →
      splitFirst (q :: []) (v ++ (q :: rest)) = some (v, rest) := by
  intro v
  induction v with
  | nil =>
    intro _
    simp only [List.nil_append, splitFirst]
    rw [if_pos (by simp [List.isPrefixOf])]
    simp
  | cons a v' ih =>
    intro h
    simp only [List.mem_cons, not_or] at h
    obtain ⟨hqa, hqv⟩ := h
    simp only [List.cons_append, splitFirst]
    rw [if_neg (by
      simp only [List.isPrefixOf, Bool.and_eq_true]
      intro hcontra
      exact hqa (eq_of_beq hcontra.1))]
    simp only [List.append_eq]
    rw [ih hqv]
    rfl

theorem parseTags_tags_chars :
    ∀ tags : List String, (∀ t ∈ tags, wfTag t = true) →
      parseTags (tags_chars tags) = tags := by
  intro tags
  induction tags with
  | nil => intro _; rfl
  | cons t ts ih =>
    intro hall
    have hw := hall t (List.mem_cons_self t ts)
    have hts : ∀ x ∈ ts, wfTag x = true := fun x hx =>
      hall x (List.mem_cons_of_mem _ hx)
    simp only [wfTag, Bool.and_eq_true] at hw
    obtain ⟨hq, hrest⟩ := hw
    by_cases hsp : ' ' ∈ t.toList
    · rw [if_pos hsp, decide_eq_true_eq] at hrest
      have e : tags_chars (t :: ts)
          = ('[' :: '[' :: (t.toList ++ (']' :: ']' :: [])))
            ++ (' ' :: tags_chars ts) := by
        simp only [tags_chars, tag_chars, if_pos hsp]
      rw [e]
      simp only [List.cons_append]
      have hx : (t.toList ++ (']' :: ']' :: [])) ++ (' ' :: tags_chars ts)
          = t.toList ++ ((']' :: ']' :: []) ++ (' ' :: tags_chars ts)) := by
        rw [List.append_assoc]
      rw [hx,
        parseTags_bracket (splitFirst_extend (' ' :: tags_chars ts) t.toList hrest),
        mk_toList, parseTags_space, ih hts]
    · rw [if_neg hsp, Bool.and_eq_true, decide_eq_true_eq] at hrest
      obtain ⟨hne, hpre2⟩ := hrest
      have hpf : (('[' :: '[' :: []).isPrefixOf t.toList) = false := by
        cases hb : ('[' :: '[' :: []).isPrefixOf t.toList
        · rfl
        · rw [hb] at hpre2; simp at hpre2
      obtain ⟨c, kr, hkl⟩ : ∃ c kr, t.toList = c :: kr := by
        cases hck : t.toList with
        | nil => exact absurd hck hne
        | cons a b => exact ⟨a, b, rfl⟩
      have e : tags_chars (t :: ts) = t.toList ++ (' ' :: tags_chars ts) := by
        simp only [tags_chars, tag_chars, if_neg hsp]
      rw [e, hkl, List.cons_append]
      have hcs : ¬ c = ' ' := by
        intro hce
        apply hsp
        rw [hkl, hce]
        exact List.mem_cons_self _ _
      have hbr2 : ¬(c = '[' ∧ (kr ++ (' ' :: tags_chars ts)).head? = some '[') := by
        rintro ⟨hcb, hhd⟩
        cases kr with
        | nil => simp at hhd
        | cons k2 kr' =>
          simp only [List.cons_append, List.head?_cons, Option.some.injEq] at hhd
          rw [hkl, hcb, hhd] at hpf
          simp [List.isPrefixOf] at hpf
      rw [parseTags_bare hcs hbr2]
      have hallkr : kr.all (fun a => a != ' ') = true := by
        apply all_bne_space
        intro hmem
        apply hsp
        rw [hkl]
        exact List.mem_cons_of_mem _ hmem
      obtain ⟨ht1, ht2⟩ := @takeWhile_append_stop (fun a => a != ' ') ' '
        (tags_chars ts) (by rfl) kr hallkr
      rw [ht1, ht2, ← hkl, mk_toList, parseTags_space, ih hts]

theorem word_not_space {c : Char} (h : isWordChar c = true) :
    isSpaceChar c = false := by
  cases hs : isSpaceChar c
  · rfl
  · exfalso
    simp only [isSpaceChar, Bool.or_eq_true, beq_iff_eq] at hs
    rcases hs with ((((h1 | h1) | h1) | h1) | h1) | h1 <;>
      (subst h1; exact absurd h (by decide))

theorem matchOptionAt_attrFragment (key : String) (value rest : List Char)
    (hk1 : key.toList ≠ []) (hk2 : key.toList.all isWordChar = true)
    (hv : '"' ∉ value) :
    matchOptionAt (attrFragment key value rest)
      = some (key.toList, value, rest) := by
  obtain ⟨kc, kr, hkey⟩ : ∃ kc kr, key.toList = kc :: kr := by
    cases hck : key.toList with
    | nil => exact absurd hck hk1
    | cons a b => exact ⟨a, b, rfl⟩
  have hkcw : isWordChar kc = true := by
    rw [hkey] at hk2
    simp only [List.all_cons, Bool.and_eq_true] at hk2
    exact hk2.1
  have hkcs : isSpaceChar kc = false := word_not_space hkcw
  have hstop : (key.toList ++ ('=' :: '"' :: (value ++ ('"' :: rest)))).dropWhile
        isSpaceChar
      = key.toList ++ ('=' :: '"' :: (value ++ ('"' :: rest))) := by
    rw [hkey, List.cons_append, List.dropWhile_cons, if_neg (by rw [hkcs]; simp)]
  obtain ⟨hkt, hkd⟩ := @takeWhile_append_stop isWordChar '='
    ('"' :: (value ++ ('"' :: rest))) (by decide) key.toList hk2
  have estep : matchOptionAt (attrFragment key value rest)
      = (let afterSp := (' ' :: (key.toList
            ++ ('=' :: '"' :: (value ++ ('"' :: rest))))).dropWhile isSpaceChar
         let ky := afterSp.takeWhile isWordChar
         let rest0 := afterSp.dropWhile isWordChar
         if ky = [] then none
         else if rest0.take 2 = '=' :: '"' :: [] then
           match splitFirst ('"' :: []) (rest0.drop 2) with
           | some (v, r) => some (ky, v, r)
           | none => none
         else none) := rfl
  rw [estep]
  dsimp only
  have e2 : (' ' :: (key.toList
        ++ ('=' :: '"' :: (value ++ ('"' :: rest))))).dropWhile isSpaceChar
      = key.toList ++ ('=' :: '"' :: (value ++ ('"' :: rest))) := by
    rw [List.dropWhile_cons, if_pos (by rfl)]
    exact hstop
  rw [e2, hkt, hkd, if_neg hk1, if_pos (by rfl)]
  have e3 : ('=' :: '"' :: (value ++ ('"' :: rest))).drop 2
      = value ++ ('"' :: rest) := rfl
  rw [e3, splitFirst_single_notmem value hv]

theorem not_mem_of_all_digits {l : List Char}
    (h : l.all Char.isDigit = true) : '"' ∉ l := by
  intro hm
  rw [List.all_eq_true] at h
  exact absurd (h _ hm) (by decide)

theorem date_chars_all_digits (d : Date) :
    (date_chars d).all Char.isDigit = true := by
  simp only [date_chars, List.all_append, padNum_all_digits, Bool.and_self]

theorem no_quote_tags_chars :
    ∀ tags : List String, (∀ t ∈ tags, wfTag t = true) →
      '"' ∉ tags_chars tags := by
  intro tags
  induction tags with
  | nil => intro _ hm; cases hm
  | cons t ts ih =>
    intro hall hm
    have hw := hall t (List.mem_cons_self t ts)
    simp only [wfTag, Bool.and_eq_true, decide_eq_true_eq] at hw
    obtain ⟨hqt, _⟩ := hw
    have hts : ∀ x ∈ ts, wfTag x = true := fun x hx =>
      hall x (List.mem_cons_of_mem _ hx)
    simp only [tags_chars, List.mem_append, List.mem_cons] at hm
    rcases hm with hm | hm | hm
    · unfold tag_chars at hm
      by_cases hsp : ' ' ∈ t.toList
      · rw [if_pos hsp] at hm
        rcases List.mem_cons.mp hm with h1 | h1
        · exact absurd h1 (by decide)
        rcases List.mem_cons.mp h1 with h2 | h2
        · exact absurd h2 (by decide)
        rcases List.mem_append.mp h2 with h3 | h3
        · exact hqt h3
        rcases List.mem_cons.mp h3 with h4 | h4
        · exact absurd h4 (by decide)
        rcases List.mem_cons.mp h4 with h5 | h5
        · exact absurd h5 (by decide)
        · cases h5
      · rw [if_neg hsp] at hm
        exact hqt hm
    · exact absurd hm (by decide)
    · exact ih hts hm

theorem optionFinditer_serializeRecognized (ti : String) (tags : List String)
    (cd md : Date) (hq : '"' ∉ ti.toList) (hqt : '"' ∉ tags_chars tags) :
    optionFinditer (serializeRecognized ti tags cd md)
      = ("title", ti) :: ("tags", String.mk (tags_chars tags))
        :: ("created", String.mk (date_chars cd))
        :: ("modified", String.mk (date_chars md)) :: [] := by
  have hqc : '"' ∉ date_chars cd := not_mem_of_all_digits (date_chars_all_digits cd)
  have hqm : '"' ∉ date_chars md := not_mem_of_all_digits (date_chars_all_digits md)
  unfold serializeRecognized
  rw [optionFinditer_cons_some
      (matchOptionAt_attrFragment "title" ti.toList _ (by decide) (by decide) hq),
    optionFinditer_cons_some
      (matchOptionAt_attrFragment "tags" (tags_chars tags) _ (by decide)
        (by decide) hqt),
    optionFinditer_cons_some
      (matchOptionAt_attrFragment "created" (date_chars cd) _ (by decide)
        (by decide) hqc),
    optionFinditer_cons_some
      (matchOptionAt_attrFragment "modified" (date_chars md) _ (by decide)
        (by decide) hqm),
    optionFinditer_nil, mk_toList, mk_toList, mk_toList, mk_toList, mk_toList]

theorem attrs_serializeRecognized (ti : String) (tags : List String)
    (cd md : Date) (hq : '"' ∉ ti.toList)
    (htags : ∀ t ∈ tags, wfTag t = true) :
    dictGet (attrsOf (serializeRecognized ti tags cd md)) "title" = some ti ∧
    dictGet (attrsOf (serializeRecognized ti tags cd md)) "tags"
      = some (String.mk (tags_chars tags)) ∧
    dictGet (attrsOf (serializeRecognized ti tags cd md)) "created"
      = some (String.mk (date_chars cd)) ∧
    dictGet (attrsOf (serializeRecognized ti tags cd md)) "modified"
      = some (String.mk (date_chars md)) := by
  have hopt := optionFinditer_serializeRecognized ti tags cd md hq
    (no_quote_tags_chars tags htags)
  have e0 : attrsOf (serializeRecognized ti tags cd md)
      = dictInsert (dictInsert (dictInsert (dictInsert [] "title" ti)
          "tags" (String.mk (tags_chars tags)))
          "created" (String.mk (date_chars cd)))
          "modified" (String.mk (date_chars md)) := by
    unfold attrsOf
    rw [hopt]
    rfl
  refine ⟨?_, ?_, ?_, ?_⟩
  · rw [e0, dictGet_dictInsert_other _ _ _ _ (by decide),
      dictGet_dictInsert_other _ _ _ _ (by decide),
      dictGet_dictInsert_other _ _ _ _ (by decide),
      dictGet_dictInsert_self]
  · rw [e0, dictGet_dictInsert_other _ _ _ _ (by decide),
      dictGet_dictInsert_other _ _ _ _ (by decide),
      dictGet_dictInsert_self]
  · rw [e0, dictGet_dictInsert_other _ _ _ _ (by decide),
      dictGet_dictInsert_self]
  · rw [e0, dictGet_dictInsert_self]

/-- C9: for a record produced by the extraction pipeline whose recognized
attributes were all present (title, tags, created and modified all set) and
whose values are well-formed for the attribute syntax (`wfTag`, `wfDate`, no
quote in the title), re-serializing the recognized fields into an attribute
string (`serializeRecognized`) and re-parsing with the Attribute Tokenizer
and Field Normalizer reproduces the record's title, tags, created and
modified values. -/
theorem c9_roundtrip_recognized_fields (o c : List Char) (t : Tiddler)
    (ti : String) (cd md : Date)
    (_hp : processMatch o c = .ok (some t))
    (hti : t.title = some ti) (hcd : t.created = some cd)
    (hmd : t.modified = some md)
    (hq : '"' ∉ ti.toList)
    (htags : ∀ tg ∈ t.tags, wfTag tg = true)
    (hwcd : wfDate cd = true) (hwmd : wfDate md = true) :
    dictGet (attrsOf (serializeRecognized ti t.tags cd md)) "title" = t.title ∧
    (dictGet (attrsOf (serializeRecognized ti t.tags cd md)) "tags").map
      get_tag_list = some t.tags ∧
    Option.bind (dictGet (attrsOf (serializeRecognized ti t.tags cd md))
      "created") string_to_date = t.created ∧
    Option.bind (dictGet (attrsOf (serializeRecognized ti t.tags cd md))
      "modified") string_to_date = t.modified := by
  obtain ⟨e1, e2, e3, e4⟩ := attrs_serializeRecognized ti t.tags cd md hq htags
  refine ⟨?_, ?_, ?_, ?_⟩
  · rw [hti]
    exact e1
  · rw [e2, Option.map_some', get_tag_list_eq,
      show (String.mk (tags_chars t.tags)).toList = tags_chars t.tags from rfl,
      parseTags_tags_chars t.tags htags]
  · rw [hcd, e3, Option.some_bind, string_to_date_date_chars cd hwcd]
  · rw [hmd, e4, Option.some_bind, string_to_date_date_chars md hwmd]

/-- Witness for C9 on a concrete parsed record with all recognized
attributes present. -/
theorem c9_witness :
    processMatch (" title=\"just a test\" tags=\"[[multi word]] t2\" created=\"20180108222550419\" modified=\"20180111174922056\"").toList
        ("x").toList
      = .ok (some (⟨"x", some "just a test", "multi word" :: "t2" :: [],
          some ⟨2018, 1, 8, 22, 25, 50, 419⟩,
          some ⟨2018, 1, 11, 17, 49, 22, 56⟩,
          "text/vnd.tiddlywiki", []⟩ : Tiddler)) ∧
    (dictGet (attrsOf (serializeRecognized "just a test"
        ("multi word" :: "t2" :: []) ⟨2018, 1, 8, 22, 25, 50, 419⟩
        ⟨2018, 1, 11, 17, 49, 22, 56⟩)) "title" = some "just a test" ∧
     (dictGet (attrsOf (serializeRecognized "just a test"
        ("multi word" :: "t2" :: []) ⟨2018, 1, 8, 22, 25, 50, 419⟩
        ⟨2018, 1, 11, 17, 49, 22, 56⟩)) "tags").map get_tag_list
        = some ("multi word" :: "t2" :: []) ∧
     Option.bind (dictGet (attrsOf (serializeRecognized "just a test"
        ("multi word" :: "t2" :: []) ⟨2018, 1, 8, 22, 25, 50, 419⟩
        ⟨2018, 1, 11, 17, 49, 22, 56⟩)) "created") string_to_date
        = some ⟨2018, 1, 8, 22, 25, 50, 419⟩ ∧
     Option.bind (dictGet (attrsOf (serializeRecognized "just a test"
        ("multi word" :: "t2" :: []) ⟨2018, 1, 8, 22, 25, 50, 419⟩
        ⟨2018, 1, 11, 17, 49, 22, 56⟩)) "modified") string_to_date
        = some ⟨2018, 1, 11, 17, 49, 22, 56⟩) :=
  ⟨by rfl,
   c9_roundtrip_recognized_fields
     (" title=\"just a test\" tags=\"[[multi word]] t2\" created=\"20180108222550419\" modified=\"20180111174922056\"").toList
     ("x").toList
     (⟨"x", some "just a test", "multi word" :: "t2" :: [],
       some ⟨2018, 1, 8, 22, 25, 50, 419⟩, some ⟨2018, 1, 11, 17, 49, 22, 56⟩,
       "text/vnd.tiddlywiki", []⟩ : Tiddler)
     "just a test" ⟨2018, 1, 8, 22, 25, 50, 419⟩ ⟨2018, 1, 11, 17, 49, 22, 56⟩
     (by rfl) (by rfl) (by rfl) (by rfl) (by decide) (by decide) (by decide)
     (by decide)⟩

end Tw
